import Mathlib

/-
Verification development for the specdrift repository (app/core + app/services).

The pipeline parse -> normalize -> diff -> classify is shallowly embedded here.
Decoded JSON/YAML documents are modelled by the value type J below (a mutual
family so that every function reduces by kernel computation).  Python dicts are
association lists in insertion order with unique keys; dict assignment is
modelled by dictSet (update in place, append if absent), matching CPython
semantics.  Operations that can raise in Python (attribute errors on
non-mapping values, KeyError on unknown keys, TypeError on unhashable keys)
return Except Unit, written Py below; the textual JSON/YAML decoding shipped by
the json / yaml libraries is outside the model, so the Parser is embedded from
its validation step (everything after decoding) plus its format detector, which
is pure string code.

Domain notes on fidelity: object keys are strings (always true for JSON input),
Python's numeric tower is restricted to integers, and Python's cross-type
equality between bool and int (True == 1) is not modelled; none of the concrete
inputs used below depends on those corners.
-/

namespace SpecDrift

mutual
/-- Decoded document values: null, booleans, numbers, strings, arrays and
objects, mirroring what json.loads / yaml.safe_load produce. -/
inductive J where
  | null
  | bool (b : Bool)
  | num (n : Int)
  | str (s : String)
  | arr (xs : JArr)
  | obj (kvs : JObj)
deriving Repr

/-- Spine of a JSON array. -/
inductive JArr where
  | nil
  | cons (head : J) (tail : JArr)
deriving Repr

/-- Spine of a JSON object: ordered key/value pairs. -/
inductive JObj where
  | nil
  | cons (key : String) (val : J) (tail : JObj)
deriving Repr
end

/-- Convert an object spine to an ordinary association list. -/
def JObj.toList : JObj → List (String × J)
  | .nil => []
  | .cons k v t => (k, v) :: t.toList

/-- Build an object spine from an association list. -/
def JObj.ofList : List (String × J) → JObj
  | [] => .nil
  | (k, v) :: t => .cons k v (JObj.ofList t)

/-- Convert an array spine to a list of values. -/
def JArr.toList : JArr → List J
  | .nil => []
  | .cons x t => x :: t.toList

/-- Build an array spine from a list of values. -/
def JArr.ofList : List J → JArr
  | [] => .nil
  | x :: t => .cons x (JArr.ofList t)

mutual
/-- Structural equality on values, modelling Python == on decoded documents. -/
def eqb : J → J → Bool
  | .null, .null => true
  | .bool a, .bool b => a == b
  | .num a, .num b => a == b
  | .str a, .str b => a == b
  | .arr a, .arr b => eqbArr a b
  | .obj a, .obj b => eqbObj a b
  | _, _ => false

/-- Structural equality on array spines. -/
def eqbArr : JArr → JArr → Bool
  | .nil, .nil => true
  | .cons x xs, .cons y ys => eqb x y && eqbArr xs ys
  | _, _ => false

/-- Structural equality on object spines. -/
def eqbObj : JObj → JObj → Bool
  | .nil, .nil => true
  | .cons k v t, .cons k' v' t' => k == k' && eqb v v' && eqbObj t t'
  | _, _ => false
end

/-- Python truthiness of a decoded value (used by "if x:" and by "a or b"). -/
def truthy : J → Bool
  | .null => false
  | .bool b => b
  | .num n => n != 0
  | .str s => s != ""
  | .arr .nil => false
  | .arr _ => true
  | .obj .nil => false
  | .obj _ => true

/-- Hashability of a decoded value: lists and dicts are unhashable in Python. -/
def hashable : J → Bool
  | .arr _ => false
  | .obj _ => false
  | _ => true

/-- Computations that may raise a Python exception (details untracked). -/
abbrev Py (α : Type) := Except Unit α

/-- First-match lookup in an ordered association list with string keys. -/
def dictLookup {α : Type} : List (String × α) → String → Option α
  | [], _ => none
  | (k, v) :: rest, key => if k == key then some v else dictLookup rest key

/-- Key membership in an ordered association list with string keys. -/
def dictHasKey {α : Type} (l : List (String × α)) (k : String) : Bool :=
  (dictLookup l k).isSome

/-- Python dict assignment d[k] = v: update in place if the key is present
(keeping its position), append otherwise. -/
def dictSet {α : Type} : List (String × α) → String → α → List (String × α)
  | [], k, v => [(k, v)]
  | (k', v') :: rest, k, v =>
      if k' == k then (k', v) :: rest else (k', v') :: dictSet rest k v

/-- Python d.get(key, default) on an association list (total form). -/
def objGetD (kvs : List (String × J)) (k : String) (d : J) : J :=
  (dictLookup kvs k).getD d

/-- First-match lookup in a dict whose keys are arbitrary hashable values. -/
def pdictLookup : List (J × J) → J → Option J
  | [], _ => none
  | (k, v) :: rest, key => if eqb k key then some v else pdictLookup rest key

/-- Key membership for a value-keyed dict. -/
def pdictHasKey (l : List (J × J)) (k : J) : Bool :=
  (pdictLookup l k).isSome

/-- Python dict assignment for a value-keyed dict. -/
def pdictSet : List (J × J) → J → J → List (J × J)
  | [], k, v => [(k, v)]
  | (k', v') :: rest, k, v =>
      if eqb k' k then (k', v) :: rest else (k', v') :: pdictSet rest k v

/-- Python x.items(): succeeds only on a dict, raises AttributeError otherwise. -/
def pyItems : J → Py (List (String × J))
  | .obj kvs => .ok kvs.toList
  | _ => .error ()

/-- Python iteration "for x in j": keys of a dict, elements of a list,
one-character strings of a string; anything else raises TypeError. -/
def pyElems : J → Py (List J)
  | .obj kvs => .ok (kvs.toList.map fun kv => J.str kv.1)
  | .arr xs => .ok xs.toList
  | .str s => .ok (s.data.map fun c => J.str (String.singleton c))
  | _ => .error ()

/-- Python j.get(k, d): defaulted lookup, raising AttributeError when j is not
a dict. -/
def pyGetD (j : J) (k : String) (d : J) : Py J :=
  match j with
  | .obj kvs => .ok (objGetD kvs.toList k d)
  | _ => .error ()

/-- Check whether needle starts the list hay. -/
def startsList : List Char → List Char → Bool
  | _, [] => true
  | [], _ :: _ => false
  | c :: cs, d :: ds => c == d && startsList cs ds

/-- Substring test on character lists (Python "needle in haystack" on str). -/
def hasSubList (needle : List Char) : List Char → Bool
  | [] => startsList [] needle
  | c :: rest => startsList (c :: rest) needle || hasSubList needle rest

/-- Python membership "needle in container": key membership on a dict (the
needle must be hashable), element membership on a list, substring test on a
string (the needle must be a string); anything else raises TypeError. -/
def pyContains (needle container : J) : Py Bool :=
  match container with
  | .obj kvs =>
      if hashable needle then
        .ok (match needle with
             | .str s => dictHasKey kvs.toList s
             | _ => false)
      else .error ()
  | .arr xs => .ok (xs.toList.any fun e => eqb needle e)
  | .str s =>
      match needle with
      | .str t => .ok (hasSubList t.data s.data)
      | _ => .error ()
  | _ => .error ()

/-- Python indexing container[key]: dict lookup (KeyError when absent,
TypeError on an unhashable key), list indexing by an integer or bool with
negative-index wrap-around, string indexing likewise; anything else raises. -/
def pyIndex (container key : J) : Py J :=
  match container with
  | .obj kvs =>
      match key with
      | .str s =>
          match dictLookup kvs.toList s with
          | some v => .ok v
          | none => .error ()
      | _ => .error ()
  | .arr xs =>
      let l := xs.toList
      let idx : Int → Py J := fun n =>
        let i := if n < 0 then n + l.length else n
        if i < 0 then .error ()
        else match l.get? i.toNat with
             | some v => .ok v
             | none => .error ()
      match key with
      | .num n => idx n
      | .bool b => idx (if b then 1 else 0)
      | _ => .error ()
  | .str s =>
      let l := s.data
      let idx : Int → Py J := fun n =>
        let i := if n < 0 then n + l.length else n
        if i < 0 then .error ()
        else match l.get? i.toNat with
             | some c => .ok (J.str (String.singleton c))
             | none => .error ()
      match key with
      | .num n => idx n
      | .bool b => idx (if b then 1 else 0)
      | _ => .error ()
  | _ => .error ()

/-- Python set(j): collect the iterated elements, raising TypeError when any
element is unhashable.  Membership below only needs the element list. -/
def pySetOf (j : J) : Py (List J) :=
  match pyElems j with
  | .error e => .error e
  | .ok es => if es.all hashable then .ok es else .error ()

/-- Python membership "x in s" for a set given by its element list; an
unhashable probe raises TypeError. -/
def pySetContains (x : J) (s : List J) : Py Bool :=
  if hashable x then .ok (s.any fun e => eqb e x) else .error ()

mutual
/-- Python repr of a decoded value (used by str on containers). -/
def pyRepr : J → String
  | .null => "None"
  | .bool true => "True"
  | .bool false => "False"
  | .num n => toString n
  | .str s => "'" ++ s ++ "'"
  | .arr xs => "[" ++ pyReprArr xs ++ "]"
  | .obj kvs => "\x7b" ++ pyReprObj kvs ++ "\x7d"

/-- Comma-separated reprs of array elements. -/
def pyReprArr : JArr → String
  | .nil => ""
  | .cons x .nil => pyRepr x
  | .cons x (.cons y t) => pyRepr x ++ ", " ++ pyReprArr (.cons y t)

/-- Comma-separated regions of object entries, repr of key and value. -/
def pyReprObj : JObj → String
  | .nil => ""
  | .cons k v .nil => "'" ++ k ++ "': " ++ pyRepr v
  | .cons k v (.cons k' v' t) => "'" ++ k ++ "': " ++ pyRepr v ++ ", " ++ pyReprObj (.cons k' v' t)
end

/-- Python str(x): the string itself for a str, repr for everything else. -/
def pyStr : J → String
  | .str s => s
  | j => pyRepr j

/-- ASCII lower-casing of a character, as Python str.lower does on ASCII. -/
def pyLowerChar (c : Char) : Char :=
  if 65 ≤ c.toNat ∧ c.toNat ≤ 90 then Char.ofNat (c.toNat + 32) else c

/-- ASCII upper-casing of a character, as Python str.upper does on ASCII. -/
def pyUpperChar (c : Char) : Char :=
  if 97 ≤ c.toNat ∧ c.toNat ≤ 122 then Char.ofNat (c.toNat - 32) else c

/-- Python s.lower() (ASCII range; method keys in API documents are ASCII). -/
def pyLower (s : String) : String := String.mk (s.data.map pyLowerChar)

/-- Python s.upper() (ASCII range). -/
def pyUpper (s : String) : String := String.mk (s.data.map pyUpperChar)

/-- Whitespace characters stripped by Python str.strip(). -/
def isPySpace (c : Char) : Bool :=
  c == ' ' || c == '\t' || c == '\n' || c == '\r' || c == '\x0b' || c == '\x0c'

/-- Python s.strip(): drop whitespace from both ends. -/
def pyStrip (s : String) : String :=
  String.mk (((s.data.dropWhile isPySpace).reverse.dropWhile isPySpace).reverse)

/-- Severity literals of app/models/change.py: the three values the Classifier
ever writes into Change.type. -/
inductive Severity where
  | breaking
  | potentially_breaking
  | non_breaking
deriving Repr, DecidableEq

/-- Category literals of app/models/change.py. -/
inductive Category where
  | endpoint
  | method
  | parameter
  | schema
  | response
deriving Repr, DecidableEq

/-- Change record of app/models/change.py.  The path and field slots hold
decoded values: Python annotates them as strings but never enforces that. -/
structure Change where
  type : Severity
  category : Category
  path : J
  method : Option String
  field : Option J
  message : String
deriving Repr

/-- Summary counters built by DiffService._build_result. -/
structure Summary where
  breaking : Nat
  potentially_breaking : Nat
  non_breaking : Nat
deriving Repr, DecidableEq

/-- Result of a successful comparison: summary plus ordered change list. -/
structure DiffResult where
  summary : Summary
  changes : List Change
deriving Repr

namespace Rules

/-- BREAKING_RULES table of app/core/rules.py. -/
def BREAKING_RULES : List (String × String) :=
  [("endpoint_removed", "Endpoint removed"),
   ("method_removed", "HTTP method removed"),
   ("required_parameter_added", "Required request parameter added"),
   ("parameter_removed", "Parameter removed"),
   ("parameter_type_changed", "Parameter type changed"),
   ("required_field_added", "Required request body field added"),
   ("field_removed", "Request/response field removed"),
   ("field_type_changed", "Field type changed"),
   ("enum_value_removed", "Enum value removed"),
   ("success_response_removed", "Success response (2xx) removed")]

/-- POTENTIALLY_BREAKING_RULES table of app/core/rules.py. -/
def POTENTIALLY_BREAKING_RULES : List (String × String) :=
  [("non_2xx_response_removed", "Non-2xx response removed"),
   ("enum_value_added", "Enum value added"),
   ("default_value_removed", "Default value removed")]

/-- NON_BREAKING_RULES table of app/core/rules.py. -/
def NON_BREAKING_RULES : List (String × String) :=
  [("endpoint_added", "New endpoint"),
   ("method_added", "New HTTP method"),
   ("optional_parameter_added", "New optional parameter"),
   ("optional_field_added", "New optional request field"),
   ("response_field_added", "New response field"),
   ("metadata_changed", "Metadata-only changes")]

/-- Python "a or b" specialised to an optional string against a fallback:
a None or empty-string left operand yields the right operand. -/
def orStr (a : Option String) (b : String) : String :=
  match a with
  | some s => if s == "" then b else s
  | none => b

/-- classify_change of app/core/rules.py. -/
def classify_change (rule_type : String) : String :=
  if dictHasKey BREAKING_RULES rule_type then "breaking"
  else if dictHasKey POTENTIALLY_BREAKING_RULES rule_type then "potentially_breaking"
  else if dictHasKey NON_BREAKING_RULES rule_type then "non_breaking"
  else "potentially_breaking"

/-- get_rule_message of app/core/rules.py: chained defaulted lookups. -/
def get_rule_message (rule_type : String) : String :=
  orStr (dictLookup BREAKING_RULES rule_type)
    (orStr (dictLookup POTENTIALLY_BREAKING_RULES rule_type)
      (orStr (dictLookup NON_BREAKING_RULES rule_type) "Unknown change"))

end Rules

namespace Classifier

open Rules

/-- Classifier.classify_endpoint_removal. -/
def classify_endpoint_removal (path : J) : Change :=
  ⟨.breaking, .endpoint, path, none, none, get_rule_message "endpoint_removed"⟩

/-- Classifier.classify_endpoint_addition. -/
def classify_endpoint_addition (path : J) : Change :=
  ⟨.non_breaking, .endpoint, path, none, none, get_rule_message "endpoint_added"⟩

/-- Classifier.classify_method_removal. -/
def classify_method_removal (path : J) (method : String) : Change :=
  ⟨.breaking, .method, path, some (pyUpper method), none, get_rule_message "method_removed"⟩

/-- Classifier.classify_method_addition. -/
def classify_method_addition (path : J) (method : String) : Change :=
  ⟨.non_breaking, .method, path, some (pyUpper method), none, get_rule_message "method_added"⟩

/-- Classifier.classify_parameter_change.  The required flag arrives as a
decoded value and is tested for truthiness, exactly as the Python if does. -/
def classify_parameter_change (path : J) (method : String) (param_name : J)
    (change_type : String) (is_required : J) : Change :=
  if change_type == "removed" then
    ⟨.breaking, .parameter, path, some (pyUpper method), some param_name,
      get_rule_message "parameter_removed"⟩
  else if change_type == "added" then
    if truthy is_required then
      ⟨.breaking, .parameter, path, some (pyUpper method), some param_name,
        get_rule_message "required_parameter_added"⟩
    else
      ⟨.non_breaking, .parameter, path, some (pyUpper method), some param_name,
        get_rule_message "optional_parameter_added"⟩
  else if change_type == "type_changed" then
    ⟨.breaking, .parameter, path, some (pyUpper method), some param_name,
      get_rule_message "parameter_type_changed"⟩
  else
    ⟨.potentially_breaking, .parameter, path, some (pyUpper method), some param_name,
      "Parameter changed"⟩

/-- Classifier.classify_schema_change. -/
def classify_schema_change (path : J) (method : String) (field_name : J)
    (change_type : String) (is_required : J) : Change :=
  if change_type == "removed" then
    ⟨.breaking, .schema, path, some (pyUpper method), some field_name,
      get_rule_message "field_removed"⟩
  else if change_type == "added" then
    if truthy is_required then
      ⟨.breaking, .schema, path, some (pyUpper method), some field_name,
        get_rule_message "required_field_added"⟩
    else
      ⟨.non_breaking, .schema, path, some (pyUpper method), some field_name,
        get_rule_message "optional_field_added"⟩
  else if change_type == "type_changed" then
    ⟨.breaking, .schema, path, some (pyUpper method), some field_name,
      get_rule_message "field_type_changed"⟩
  else
    ⟨.potentially_breaking, .schema, path, some (pyUpper method), some field_name,
      "Field changed"⟩

/-- Classifier.classify_response_change. -/
def classify_response_change (path : J) (method : String) (status_code : String)
    (change_type : String) : Change :=
  if change_type == "removed" then
    if startsList status_code.data ['2'] then
      ⟨.breaking, .response, path, some (pyUpper method),
        some (J.str ("Response " ++ status_code)), get_rule_message "success_response_removed"⟩
    else
      ⟨.potentially_breaking, .response, path, some (pyUpper method),
        some (J.str ("Response " ++ status_code)), get_rule_message "non_2xx_response_removed"⟩
  else if change_type == "added" then
    ⟨.non_breaking, .response, path, some (pyUpper method),
      some (J.str ("Response " ++ status_code)), "New response status"⟩
  else
    ⟨.potentially_breaking, .response, path, some (pyUpper method),
      some (J.str ("Response " ++ status_code)), "Response changed"⟩

end Classifier

/-- Recognized HTTP methods, the tuple repeated at normalizer.py lines 64/75
and differ.py lines 79-81/86-88. -/
def METHODS : List String :=
  ["get", "post", "put", "delete", "patch", "options", "head"]

namespace Normalizer

/-- Inner loop of _normalize_paths_openapi3 / _normalize_paths_swagger2 over
one path item: keep every entry whose lower-cased key is a recognized method,
assigning under the lower-cased key (so a later duplicate overwrites an
earlier one, dict-assignment style).  No check on the value is performed. -/
def normalizePathItemGo (acc : List (String × J)) : List (String × J) → List (String × J)
  | [] => acc
  | (method, operation) :: rest =>
      if METHODS.contains (pyLower method) then
        normalizePathItemGo (dictSet acc (pyLower method) operation) rest
      else
        normalizePathItemGo acc rest

/-- Normalization of one path item: its .items() call raises on a non-dict
path item, then the keep-loop above runs. -/
def normalizePathItem (path_item : J) : Py (List (String × J)) :=
  match pyItems path_item with
  | .error e => .error e
  | .ok its => .ok (normalizePathItemGo [] its)

/-- Outer loop shared by both path normalizers: normalized[path] is the
normalized path item, in document key order. -/
def normalizePathsGo : List (String × J) → Py (List (String × J))
  | [] => .ok []
  | (path, path_item) :: rest =>
      match normalizePathItem path_item with
      | .error e => .error e
      | .ok itemN =>
          match normalizePathsGo rest with
          | .error e => .error e
          | .ok restN => .ok ((path, J.obj (JObj.ofList itemN)) :: restN)

/-- Normalizer._normalize_paths_openapi3: paths.items() raises on a non-dict
paths value, then each path item is normalized. -/
def normalize_paths_openapi3 (paths : J) : Py (List (String × J)) :=
  match pyItems paths with
  | .error e => .error e
  | .ok its => normalizePathsGo its

/-- Normalizer._normalize_paths_swagger2: textually identical loop. -/
def normalize_paths_swagger2 (paths : J) : Py (List (String × J)) :=
  match pyItems paths with
  | .error e => .error e
  | .ok its => normalizePathsGo its

/-- Normalizer._normalize_openapi_3: the four-entry normalized dict. -/
def normalize_openapi_3 (spec : List (String × J)) : Py (List (String × J)) :=
  match normalize_paths_openapi3 (objGetD spec "paths" (J.obj .nil)) with
  | .error e => .error e
  | .ok ps =>
      .ok [("version", objGetD spec "openapi" (J.str "3.0.0")),
           ("info", objGetD spec "info" (J.obj .nil)),
           ("paths", J.obj (JObj.ofList ps)),
           ("components", objGetD spec "components" (J.obj .nil))]

/-- Normalizer._normalize_swagger_2. -/
def normalize_swagger_2 (spec : List (String × J)) : Py (List (String × J)) :=
  match normalize_paths_swagger2 (objGetD spec "paths" (J.obj .nil)) with
  | .error e => .error e
  | .ok ps =>
      .ok [("version", objGetD spec "swagger" (J.str "2.0")),
           ("info", objGetD spec "info" (J.obj .nil)),
           ("paths", J.obj (JObj.ofList ps)),
           ("definitions", objGetD spec "definitions" (J.obj .nil))]

/-- Normalizer.normalize: dialect dispatch on key presence, with the
defensive pass-through branch when neither key exists. -/
def normalize (spec : List (String × J)) : Py (List (String × J)) :=
  if dictHasKey spec "swagger" then normalize_swagger_2 spec
  else if dictHasKey spec "openapi" then normalize_openapi_3 spec
  else .ok spec

/-- Parameter buckets built by extract_parameters: the fixed dict
keyed "query" / "path" / "header" / "body", each bucket keyed by decoded
values (parameter names or content types). -/
structure Params where
  query : List (J × J)
  path : List (J × J)
  header : List (J × J)
  body : List (J × J)
deriving Repr

/-- Assignment params[param_in][param_name] = info: resolve the location
first (KeyError on anything but the four bucket names), then hash the
name (TypeError on an unhashable name), then assign. -/
def paramsAssign (ps : Params) (param_in param_name info : J) : Py Params :=
  if eqb param_in (J.str "query") then
    if hashable param_name then .ok ⟨pdictSet ps.query param_name info, ps.path, ps.header, ps.body⟩
    else .error ()
  else if eqb param_in (J.str "path") then
    if hashable param_name then .ok ⟨ps.query, pdictSet ps.path param_name info, ps.header, ps.body⟩
    else .error ()
  else if eqb param_in (J.str "header") then
    if hashable param_name then .ok ⟨ps.query, ps.path, pdictSet ps.header param_name info, ps.body⟩
    else .error ()
  else if eqb param_in (J.str "body") then
    if hashable param_name then .ok ⟨ps.query, ps.path, ps.header, pdictSet ps.body param_name info⟩
    else .error ()
  else .error ()

/-- OpenAPI-v3 parameter loop of extract_parameters: each entry needs .get
(raising on a non-dict entry), and is stored when both "in" and "name" are
truthy, as a dict with a "required" and a "schema" slot. -/
def paramLoopOpenapi3 (acc : Params) : List J → Py Params
  | [] => .ok acc
  | param :: rest =>
      match pyGetD param "in" J.null with
      | .error e => .error e
      | .ok param_in =>
          match pyGetD param "name" J.null with
          | .error e => .error e
          | .ok param_name =>
              if truthy param_in && truthy param_name then
                match pyGetD param "required" (J.bool false) with
                | .error e => .error e
                | .ok req =>
                    match pyGetD param "schema" (J.obj .nil) with
                    | .error e => .error e
                    | .ok sch =>
                        match paramsAssign acc param_in param_name
                            (J.obj (JObj.ofList [("required", req), ("schema", sch)])) with
                        | .error e => .error e
                        | .ok acc2 => paramLoopOpenapi3 acc2 rest
              else paramLoopOpenapi3 acc rest

/-- Swagger-2.0 parameter loop of extract_parameters: same shape but the
stored info carries a flat "type" slot (defaulting to None). -/
def paramLoopSwagger2 (acc : Params) : List J → Py Params
  | [] => .ok acc
  | param :: rest =>
      match pyGetD param "in" J.null with
      | .error e => .error e
      | .ok param_in =>
          match pyGetD param "name" J.null with
          | .error e => .error e
          | .ok param_name =>
              if truthy param_in && truthy param_name then
                match pyGetD param "required" (J.bool false) with
                | .error e => .error e
                | .ok req =>
                    match pyGetD param "type" J.null with
                    | .error e => .error e
                    | .ok typ =>
                        match paramsAssign acc param_in param_name
                            (J.obj (JObj.ofList [("required", req), ("type", typ)])) with
                        | .error e => .error e
                        | .ok acc2 => paramLoopSwagger2 acc2 rest
              else paramLoopSwagger2 acc rest

/-- Request-body fold of extract_parameters (OpenAPI v3 only): one body
bucket entry per declared content type, keyed by the content type. -/
def bodyContentLoop (rbRequired : J) (acc : Params) : List (String × J) → Py Params
  | [] => .ok acc
  | (content_type, content_spec) :: rest =>
      match pyGetD content_spec "schema" (J.obj .nil) with
      | .error e => .error e
      | .ok schema =>
          bodyContentLoop rbRequired
            ⟨acc.query, acc.path, acc.header,
             pdictSet acc.body (J.str content_type)
               (J.obj (JObj.ofList [("required", rbRequired), ("schema", schema)]))⟩
            rest

/-- Normalizer.extract_parameters. -/
def extract_parameters (operation : List (String × J)) (is_openapi3 : Bool) : Py Params :=
  if is_openapi3 then
    match pyElems (objGetD operation "parameters" (J.arr .nil)) with
    | .error e => .error e
    | .ok params =>
        match paramLoopOpenapi3 ⟨[], [], [], []⟩ params with
        | .error e => .error e
        | .ok acc =>
            let request_body := objGetD operation "requestBody" (J.obj .nil)
            if truthy request_body then
              match pyGetD request_body "content" (J.obj .nil) with
              | .error e => .error e
              | .ok content =>
                  match pyItems content with
                  | .error e => .error e
                  | .ok cts =>
                      match pyGetD request_body "required" (J.bool false) with
                      | .error e => .error e
                      | .ok rbReq => bodyContentLoop rbReq acc cts
            else .ok acc
  else
    match pyElems (objGetD operation "parameters" (J.arr .nil)) with
    | .error e => .error e
    | .ok params => paramLoopSwagger2 ⟨[], [], [], []⟩ params

/-- Normalizer.extract_responses: copy of operation.get("responses", {})
entry by entry; the .items() call raises on a truthy non-dict value. -/
def extract_responses (operation : List (String × J)) : Py (List (String × J)) :=
  match pyItems (objGetD operation "responses" (J.obj .nil)) with
  | .error e => .error e
  | .ok items => .ok items

end Normalizer

namespace Differ

open Classifier

/-- Loop over old paths inside _diff_endpoints: emit endpoint-removed for
every old path absent from the new paths container. -/
def endpointRemovedLoop (newPaths : J) : List J → Py (List Change)
  | [] => .ok []
  | path :: rest =>
      match pyContains path newPaths with
      | .error e => .error e
      | .ok b =>
          match endpointRemovedLoop newPaths rest with
          | .error e => .error e
          | .ok tail => .ok (if b then tail else classify_endpoint_removal path :: tail)

/-- Loop over new paths inside _diff_endpoints: emit endpoint-added for
every new path absent from the old paths container. -/
def endpointAddedLoop (oldPaths : J) : List J → Py (List Change)
  | [] => .ok []
  | path :: rest =>
      match pyContains path oldPaths with
      | .error e => .error e
      | .ok b =>
          match endpointAddedLoop oldPaths rest with
          | .error e => .error e
          | .ok tail => .ok (if b then tail else classify_endpoint_addition path :: tail)

/-- Differ._diff_endpoints: the removed loop fully precedes the added loop. -/
def diff_endpoints (oldPaths newPaths : J) : Py (List Change) :=
  match pyElems oldPaths with
  | .error e => .error e
  | .ok olds =>
      match endpointRemovedLoop newPaths olds with
      | .error e => .error e
      | .ok removed =>
          match pyElems newPaths with
          | .error e => .error e
          | .ok news =>
              match endpointAddedLoop oldPaths news with
              | .error e => .error e
              | .ok added => .ok (removed ++ added)

/-- Dict comprehension of _diff_operations: keep the path-item entries whose
value is a dict and whose lower-cased key is a recognized method, keeping the
original key. -/
def opMethodsGo (acc : List (String × List (String × J))) :
    List (String × J) → List (String × List (String × J))
  | [] => acc
  | (k, v) :: rest =>
      match v with
      | .obj kvs =>
          if METHODS.contains (pyLower k) then opMethodsGo (dictSet acc k kvs.toList) rest
          else opMethodsGo acc rest
      | _ => opMethodsGo acc rest

/-- Method table of one path item, per the comprehension above. -/
def opMethods (its : List (String × J)) : List (String × List (String × J)) :=
  opMethodsGo [] its

/-- Python "a or b" on decoded values: the first operand when truthy,
otherwise the second. -/
def pyOr (a b : J) : J := if truthy a then a else b

/-- Type string of one parameter record inside _diff_parameters:
str(param.get("schema") or param.get("type", "")). -/
def paramTypeStr (info : J) : Py String :=
  match pyGetD info "schema" J.null with
  | .error e => .error e
  | .ok s =>
      if truthy s then .ok (pyStr s)
      else
        match pyGetD info "type" (J.str "") with
        | .error e => .error e
        | .ok t => .ok (pyStr t)

/-- Added-parameter loop of _diff_parameters: for a name missing from the old
bucket, read requiredness from the new record and classify. -/
def paramAddedLoop (path : J) (method : String) (oldIn : List (J × J)) :
    List (J × J) → Py (List Change)
  | [] => .ok []
  | (param_name, info) :: rest =>
      match (if pdictHasKey oldIn param_name then (.ok [] : Py (List Change))
             else
               match pyGetD info "required" (J.bool false) with
               | .error e => .error e
               | .ok req =>
                   .ok [classify_parameter_change path method param_name "added" req]) with
      | .error e => .error e
      | .ok head =>
          match paramAddedLoop path method oldIn rest with
          | .error e => .error e
          | .ok tail => .ok (head ++ tail)

/-- Type-change loop of _diff_parameters over names present in both buckets. -/
def paramTypeLoop (path : J) (method : String) (newIn : List (J × J)) :
    List (J × J) → Py (List Change)
  | [] => .ok []
  | (param_name, oldInfo) :: rest =>
      match (match pdictLookup newIn param_name with
             | none => (.ok [] : Py (List Change))
             | some newInfo =>
                 match paramTypeStr oldInfo with
                 | .error e => .error e
                 | .ok oldT =>
                     match paramTypeStr newInfo with
                     | .error e => .error e
                     | .ok newT =>
                         .ok (if oldT != newT && oldT != "" && newT != "" then
                                [classify_parameter_change path method param_name
                                  "type_changed" (J.bool false)]
                              else [])) with
      | .error e => .error e
      | .ok head =>
          match paramTypeLoop path method newIn rest with
          | .error e => .error e
          | .ok tail => .ok (head ++ tail)

/-- One location pass of _diff_parameters: removed names, then added names,
then type changes, in bucket insertion order. -/
def paramLocDiff (path : J) (method : String) (oldIn newIn : List (J × J)) :
    Py (List Change) :=
  let removed :=
    (oldIn.filter fun kv => ! pdictHasKey newIn kv.1).map fun kv =>
      classify_parameter_change path method kv.1 "removed" (J.bool false)
  match paramAddedLoop path method oldIn newIn with
  | .error e => .error e
  | .ok added =>
      match paramTypeLoop path method newIn oldIn with
      | .error e => .error e
      | .ok changed => .ok (removed ++ added ++ changed)

/-- Differ._diff_parameters: extract both parameter tables, then walk the
"query", "path", "header" buckets in that fixed order. -/
def diff_parameters (path : J) (method : String)
    (old_op new_op : List (String × J)) (is_openapi3 : Bool) : Py (List Change) :=
  match Normalizer.extract_parameters old_op is_openapi3 with
  | .error e => .error e
  | .ok oldP =>
      match Normalizer.extract_parameters new_op is_openapi3 with
      | .error e => .error e
      | .ok newP =>
          match paramLocDiff path method oldP.query newP.query with
          | .error e => .error e
          | .ok cq =>
              match paramLocDiff path method oldP.path newP.path with
              | .error e => .error e
              | .ok cp =>
                  match paramLocDiff path method oldP.header newP.header with
                  | .error e => .error e
                  | .ok ch => .ok (cq ++ cp ++ ch)

/-- Differ._extract_schema_from_request_body content walk: return the first
truthy schema among the declared content types, in declaration order. -/
def extractSchemaLoop : List (String × J) → Py J
  | [] => .ok (J.obj .nil)
  | (_, content_spec) :: rest =>
      match pyGetD content_spec "schema" (J.obj .nil) with
      | .error e => .error e
      | .ok schema => if truthy schema then .ok schema else extractSchemaLoop rest

/-- Differ._extract_schema_from_request_body. -/
def extract_schema_from_request_body (request_body : J) : Py J :=
  if ! truthy request_body then .ok (J.obj .nil)
  else
    match pyGetD request_body "content" (J.obj .nil) with
    | .error e => .error e
    | .ok content =>
        match pyItems content with
        | .error e => .error e
        | .ok cts => extractSchemaLoop cts

/-- Removed-property loop of _diff_schema. -/
def schemaRemovedLoop (path : J) (method : String) (newProps : J) :
    List J → Py (List Change)
  | [] => .ok []
  | prop_name :: rest =>
      match pyContains prop_name newProps with
      | .error e => .error e
      | .ok b =>
          match schemaRemovedLoop path method newProps rest with
          | .error e => .error e
          | .ok tail =>
              .ok (if b then tail
                   else classify_schema_change path method prop_name "removed" (J.bool false) :: tail)

/-- Added-property loop of _diff_schema: requiredness comes from membership
in the new schema's required set. -/
def schemaAddedLoop (path : J) (method : String) (oldProps : J) (newReq : List J) :
    List J → Py (List Change)
  | [] => .ok []
  | prop_name :: rest =>
      match pyContains prop_name oldProps with
      | .error e => .error e
      | .ok b =>
          match (if b then (.ok [] : Py (List Change))
                 else
                   match pySetContains prop_name newReq with
                   | .error e => .error e
                   | .ok r =>
                       .ok [classify_schema_change path method prop_name "added" (J.bool r)]) with
          | .error e => .error e
          | .ok head =>
              match schemaAddedLoop path method oldProps newReq rest with
              | .error e => .error e
              | .ok tail => .ok (head ++ tail)

/-- Type-change loop of _diff_schema over properties present in both sides:
compare the string forms of the "type" slots. -/
def schemaTypeLoop (path : J) (method : String) (oldProps newProps : J) :
    List J → Py (List Change)
  | [] => .ok []
  | prop_name :: rest =>
      match pyContains prop_name newProps with
      | .error e => .error e
      | .ok b =>
          match (if ! b then (.ok [] : Py (List Change))
                 else
                   match pyIndex oldProps prop_name with
                   | .error e => .error e
                   | .ok oldProp =>
                       match pyGetD oldProp "type" (J.str "") with
                       | .error e => .error e
                       | .ok ot =>
                           match pyIndex newProps prop_name with
                           | .error e => .error e
                           | .ok newProp =>
                               match pyGetD newProp "type" (J.str "") with
                               | .error e => .error e
                               | .ok nt =>
                                   let oldT := pyStr ot
                                   let newT := pyStr nt
                                   .ok (if oldT != newT && oldT != "" && newT != "" then
                                          [classify_schema_change path method prop_name
                                            "type_changed" (J.bool false)]
                                        else [])) with
          | .error e => .error e
          | .ok head =>
              match schemaTypeLoop path method oldProps newProps rest with
              | .error e => .error e
              | .ok tail => .ok (head ++ tail)

/-- Differ._diff_schema: removed properties, added properties, then type
changes; the location argument is never read by the source either. -/
def diff_schema (path : J) (method : String) (old_schema new_schema : J)
    (_location : String) : Py (List Change) :=
  match pyGetD old_schema "properties" (J.obj .nil) with
  | .error e => .error e
  | .ok oldProps =>
      match pyGetD new_schema "properties" (J.obj .nil) with
      | .error e => .error e
      | .ok newProps =>
          match pyGetD old_schema "required" (J.arr .nil) with
          | .error e => .error e
          | .ok oreq =>
              match pySetOf oreq with
              | .error e => .error e
              | .ok _oldReq =>
                  match pyGetD new_schema "required" (J.arr .nil) with
                  | .error e => .error e
                  | .ok nreq =>
                      match pySetOf nreq with
                      | .error e => .error e
                      | .ok newReq =>
                          match pyElems oldProps with
                          | .error e => .error e
                          | .ok oldNames =>
                              match schemaRemovedLoop path method newProps oldNames with
                              | .error e => .error e
                              | .ok removed =>
                                  match pyElems newProps with
                                  | .error e => .error e
                                  | .ok newNames =>
                                      match schemaAddedLoop path method oldProps newReq newNames with
                                      | .error e => .error e
                                      | .ok added =>
                                          match schemaTypeLoop path method oldProps newProps oldNames with
                                          | .error e => .error e
                                          | .ok changed => .ok (removed ++ added ++ changed)

/-- Differ._diff_request_body: nothing to do when both bodies are falsy,
skip when either extracted schema is falsy, else diff the schemas. -/
def diff_request_body (path : J) (method : String)
    (old_op new_op : List (String × J)) : Py (List Change) :=
  let old_body := objGetD old_op "requestBody" (J.obj .nil)
  let new_body := objGetD new_op "requestBody" (J.obj .nil)
  if ! truthy old_body && ! truthy new_body then .ok []
  else
    match extract_schema_from_request_body old_body with
    | .error e => .error e
    | .ok old_schema =>
        match extract_schema_from_request_body new_body with
        | .error e => .error e
        | .ok new_schema =>
            if ! truthy old_schema || ! truthy new_schema then .ok []
            else diff_schema path method old_schema new_schema "body"

/-- Differ._diff_responses: removed status codes then added status codes. -/
def diff_responses (path : J) (method : String)
    (old_op new_op : List (String × J)) : Py (List Change) :=
  match Normalizer.extract_responses old_op with
  | .error e => .error e
  | .ok oldR =>
      match Normalizer.extract_responses new_op with
      | .error e => .error e
      | .ok newR =>
          .ok (((oldR.filter fun kv => ! dictHasKey newR kv.1).map fun kv =>
                  classify_response_change path method kv.1 "removed")
            ++ ((newR.filter fun kv => ! dictHasKey oldR kv.1).map fun kv =>
                  classify_response_change path method kv.1 "added"))

/-- Differ._diff_operation: the OpenAPI-v3 flag is read off the old operation
only; parameters, then (conditionally) request body, then responses. -/
def diff_operation (path : J) (method : String)
    (old_op new_op : List (String × J)) : Py (List Change) :=
  let is_openapi3 := dictHasKey old_op "parameters" || dictHasKey old_op "requestBody"
  match diff_parameters path method old_op new_op is_openapi3 with
  | .error e => .error e
  | .ok ps =>
      match (if is_openapi3 then diff_request_body path method old_op new_op
             else .ok []) with
      | .error e => .error e
      | .ok bs =>
          match diff_responses path method old_op new_op with
          | .error e => .error e
          | .ok rs => .ok (ps ++ bs ++ rs)

/-- Loop over common methods at the end of _diff_operations, in old-method
order. -/
def opPairLoop (path : J) (newMethods : List (String × List (String × J))) :
    List (String × List (String × J)) → Py (List Change)
  | [] => .ok []
  | (method, old_op) :: rest =>
      match dictLookup newMethods method with
      | none => opPairLoop path newMethods rest
      | some new_op =>
          match diff_operation path method old_op new_op with
          | .error e => .error e
          | .ok cs =>
              match opPairLoop path newMethods rest with
              | .error e => .error e
              | .ok tail => .ok (cs ++ tail)

/-- Path loop of _diff_operations: for each old path also present in new,
emit removed methods, added methods, then the per-operation diffs, before
moving to the next path. -/
def opsLoop (oldPaths newPaths : J) : List J → Py (List Change)
  | [] => .ok []
  | path :: rest =>
      match pyContains path newPaths with
      | .error e => .error e
      | .ok b =>
          if b then
            match pyIndex oldPaths path with
            | .error e => .error e
            | .ok old_path_item =>
                match pyIndex newPaths path with
                | .error e => .error e
                | .ok new_path_item =>
                    match pyItems old_path_item with
                    | .error e => .error e
                    | .ok oldIts =>
                        match pyItems new_path_item with
                        | .error e => .error e
                        | .ok newIts =>
                            let oldMethods := opMethods oldIts
                            let newMethods := opMethods newIts
                            let mr :=
                              (oldMethods.filter fun kv => ! dictHasKey newMethods kv.1).map
                                fun kv => classify_method_removal path kv.1
                            let ma :=
                              (newMethods.filter fun kv => ! dictHasKey oldMethods kv.1).map
                                fun kv => classify_method_addition path kv.1
                            match opPairLoop path newMethods oldMethods with
                            | .error e => .error e
                            | .ok ops =>
                                match opsLoop oldPaths newPaths rest with
                                | .error e => .error e
                                | .ok tail => .ok (mr ++ ma ++ ops ++ tail)
          else opsLoop oldPaths newPaths rest

/-- Differ._diff_operations. -/
def diff_operations (oldPaths newPaths : J) : Py (List Change) :=
  match pyElems oldPaths with
  | .error e => .error e
  | .ok olds => opsLoop oldPaths newPaths olds

/-- Differ.diff: normalize both specs, read their paths with a defaulted
access, then endpoint pass followed by method/operation pass. -/
def diff (old_spec new_spec : List (String × J)) : Py (List Change) :=
  match Normalizer.normalize old_spec with
  | .error e => .error e
  | .ok oldN =>
      match Normalizer.normalize new_spec with
      | .error e => .error e
      | .ok newN =>
          let oldPaths := objGetD oldN "paths" (J.obj .nil)
          let newPaths := objGetD newN "paths" (J.obj .nil)
          match diff_endpoints oldPaths newPaths with
          | .error e => .error e
          | .ok es =>
              match diff_operations oldPaths newPaths with
              | .error e => .error e
              | .ok os => .ok (es ++ os)

end Differ

namespace Parser

/-- Distinct failure reasons of Parser.parse that concern a decoded value
(the empty-input and text-decoding failures live before decoding and are
outside this embedding). -/
inductive ParseErr where
  | notAnObject
  | missingVersion
  | missingInfo
  | missingPaths
deriving Repr, DecidableEq

/-- Validation performed by Parser.parse on a decoded value: the isinstance
dict check of parse itself followed by _validate_spec, whose three checks read
spec.get(...) and test truthiness, in source order. -/
def validate_decoded (j : J) : Except ParseErr (List (String × J)) :=
  match j with
  | .obj kvs =>
      let spec := kvs.toList
      if ! truthy (objGetD spec "openapi" J.null) && ! truthy (objGetD spec "swagger" J.null) then
        .error .missingVersion
      else if ! truthy (objGetD spec "info" J.null) then .error .missingInfo
      else if ! truthy (objGetD spec "paths" J.null) then .error .missingPaths
      else .ok spec
  | _ => .error .notAnObject

/-- Parser.detect_format: strip, then a single leading-brace test. -/
def detect_format (content : String) : String :=
  if startsList (pyStrip content).data ['\x7b'] then "json" else "yaml"

end Parser

namespace DiffService

/-- Default value of the old_format / new_format parameters in the
compare_specs signature (diff_service.py line 18). -/
def defaultFormat : String := "json"

/-- Format resolution at the top of compare_specs: a falsy (empty) or "auto"
format is replaced by the Parser's detector, anything else is kept. -/
def resolveFormat (content fmt : String) : String :=
  if fmt == "" || fmt == "auto" then Parser.detect_format content else fmt

/-- Failure surface of compare_specs: a ValueError wrapping either a parse
failure or the catch-all for any other exception. -/
inductive CompareErr where
  | parseFailure (e : Parser.ParseErr)
  | unexpected
deriving Repr, DecidableEq

/-- Summary fold of DiffService._build_result: count each severity. -/
def buildSummary : List Change → Summary
  | [] => ⟨0, 0, 0⟩
  | c :: rest =>
      let s := buildSummary rest
      match c.type with
      | .breaking => ⟨s.breaking + 1, s.potentially_breaking, s.non_breaking⟩
      | .potentially_breaking => ⟨s.breaking, s.potentially_breaking + 1, s.non_breaking⟩
      | .non_breaking => ⟨s.breaking, s.potentially_breaking, s.non_breaking + 1⟩

/-- DiffService._build_result. -/
def build_result (changes : List Change) : DiffResult :=
  ⟨buildSummary changes, changes⟩

/-- Comparison pipeline of DiffService.compare_specs from the two decoded
documents onward: validate both (a ParseError re-surfaces as the parsing
ValueError), run the Differ, and let the catch-all turn any exception inside
normalization/diffing into the generic unexpected error. -/
def compare_decoded (old_doc new_doc : J) : Except CompareErr DiffResult :=
  match Parser.validate_decoded old_doc with
  | .error e => .error (.parseFailure e)
  | .ok old_spec =>
      match Parser.validate_decoded new_doc with
      | .error e => .error (.parseFailure e)
      | .ok new_spec =>
          match Differ.diff old_spec new_spec with
          | .error _ => .error .unexpected
          | .ok changes => .ok (build_result changes)

end DiffService

/-- Change list of a Differ run, or [] when the run raised. -/
def changesOf (r : Py (List Change)) : List Change :=
  match r with
  | .ok l => l
  | .error _ => []

/-- Phase rank used by the traversal-order claim: endpoint changes first,
method changes second, operation-level changes third. -/
def phaseRank (c : Category) : Nat :=
  match c with
  | .endpoint => 0
  | .method => 1
  | _ => 2

/-- Monotone phase test over a change list: true when the sequence of phase
ranks never decreases. -/
def phaseOrdered : List Change → Bool
  | [] => true
  | [_] => true
  | a :: b :: rest => decide (phaseRank a.category ≤ phaseRank b.category) && phaseOrdered (b :: rest)

/-- Paths of the endpoint-removed changes in a change list. -/
def removedEndpointPaths (l : List Change) : List J :=
  (l.filter fun c => c.category == Category.endpoint && c.type == Severity.breaking).map
    fun c => c.path

/-- Paths of the endpoint-added changes in a change list. -/
def addedEndpointPaths (l : List Change) : List J :=
  (l.filter fun c => c.category == Category.endpoint && c.type == Severity.non_breaking).map
    fun c => c.path

/-- Test whether a value is a dict, modelling isinstance(v, dict). -/
def isDict : J → Bool
  | .obj _ => true
  | _ => false

/-- Membership outcome "path not in container" as a Boolean, defined only on
non-raising membership tests. -/
def notInB (x q : J) : Bool :=
  match pyContains x q with
  | .ok b => ! b
  | .error _ => false

/-- Tag carried by every method-, parameter-, schema- and response-category
change: the method slot holds the upper-casing of a recognized method key. -/
def MethodTag (c : Change) : Prop :=
  ∃ m, METHODS.contains (pyLower m) = true ∧ c.method = some (pyUpper m)

/-- Shape of a method-removed change. -/
def MethodRemChange (c : Change) : Prop :=
  c.category = .method ∧ c.type = .breaking ∧ c.field = none ∧ MethodTag c

/-- Shape of a method-added change. -/
def MethodAddChange (c : Change) : Prop :=
  c.category = .method ∧ c.type = .non_breaking ∧ c.field = none ∧ MethodTag c

/-- Shape of an operation-level change (parameters, request body, responses). -/
def OpLevelChange (c : Change) : Prop :=
  (c.category = .parameter ∨ c.category = .schema ∨ c.category = .response) ∧ MethodTag c

/-- Shape of one common path's contribution to the Differ output: its
method-removed changes, then its method-added changes, then its
operation-level changes. -/
def ChunkShape (l : List Change) : Prop :=
  ∃ mr ma ops, l = mr ++ ma ++ ops ∧
    (∀ c ∈ mr, MethodRemChange c) ∧
    (∀ c ∈ ma, MethodAddChange c) ∧
    (∀ c ∈ ops, OpLevelChange c)

/-- Shape of the endpoint pass: removed-endpoint changes then added-endpoint
changes, both with empty method and field slots. -/
def EndpointPhase (l : List Change) : Prop :=
  ∃ er ea, l = er ++ ea ∧
    (∀ c ∈ er, c.category = .endpoint ∧ c.type = .breaking ∧ c.method = none ∧ c.field = none) ∧
    (∀ c ∈ ea, c.category = .endpoint ∧ c.type = .non_breaking ∧ c.method = none ∧ c.field = none)

/-- Pairwise key distinctness for a string-keyed association list. -/
def NodupKeys {α : Type} (l : List (String × α)) : Prop :=
  l.Pairwise fun a b => a.1 ≠ b.1

/-- Pairwise key distinctness for a value-keyed dict. -/
def PNodupKeys (l : List (J × J)) : Prop :=
  l.Pairwise fun a b => eqb a.1 b.1 = false

/-- Key distinctness of all four parameter buckets. -/
def ParamsNodup (ps : Normalizer.Params) : Prop :=
  PNodupKeys ps.query ∧ PNodupKeys ps.path ∧ PNodupKeys ps.header ∧ PNodupKeys ps.body

/-- Operation-level change shape relative to one fixed method key. -/
def OpLevelAt (method : String) (c : Change) : Prop :=
  (c.category = .parameter ∨ c.category = .schema ∨ c.category = .response) ∧
    c.method = some (pyUpper method)

/-- Membership outcome "path in container" as a Boolean, defined only on
non-raising membership tests. -/
def inB (x q : J) : Bool :=
  match pyContains x q with
  | .ok b => b
  | .error _ => false

/-- Exact content of one common path's segment of the Differ output, given the
two path items' entry lists: the path's method-removed changes (old method
order), then its method-added changes (new method order), then the
concatenation of one block of operation-level changes per common method in old
method order, each block produced by the operation diff of that method's old
and new operation records. -/
def SegmentFor (path : J) (oldIts newIts : List (String × J)) (seg : List Change) : Prop :=
  ∃ opsParts : List (List Change),
    seg = ((Differ.opMethods oldIts).filter fun kv =>
            ! dictHasKey (Differ.opMethods newIts) kv.1).map
            (fun kv => Classifier.classify_method_removal path kv.1)
       ++ ((Differ.opMethods newIts).filter fun kv =>
            ! dictHasKey (Differ.opMethods oldIts) kv.1).map
            (fun kv => Classifier.classify_method_addition path kv.1)
       ++ List.flatten opsParts ∧
    List.Forall₂ (fun (kv : String × List (String × J)) (part : List Change) =>
        ∃ new_op, dictLookup (Differ.opMethods newIts) kv.1 = some new_op ∧
          Differ.diff_operation path kv.1 kv.2 new_op = .ok part ∧
          ∀ c ∈ part, OpLevelAt kv.1 c)
      ((Differ.opMethods oldIts).filter fun kv => dictHasKey (Differ.opMethods newIts) kv.1)
      opsParts

/-- One common path's segment relative to the two normalized paths containers:
the path's old and new path items are looked up and their entry lists feed
SegmentFor. -/
def PathSegment (oldPaths newPaths : J) (path : J) (seg : List Change) : Prop :=
  ∃ oldItem newItem oldIts newIts,
    pyIndex oldPaths path = .ok oldItem ∧
    pyIndex newPaths path = .ok newItem ∧
    pyItems oldItem = .ok oldIts ∧
    pyItems newItem = .ok newIts ∧
    SegmentFor path oldIts newIts seg

/-- Written from the claim's corrected wording for path-item normalization:
the value stored for a lower-case method name is the value of the last entry
whose lower-cased key is that name, provided the name is recognized; no
condition on the value is applied. -/
def lastValueForMethod : List (String × J) → String → Option J
  | [], _ => none
  | (k, v) :: rest, m =>
      match lastValueForMethod rest m with
      | some w => some w
      | none => if pyLower k == m && METHODS.contains m then some v else none

/-- Build an object value from an association list. -/
def jo (kvs : List (String × J)) : J := J.obj (JObj.ofList kvs)

/-- Build an array value from a list. -/
def ja (xs : List J) : J := J.arr (JArr.ofList xs)

/-- Concrete document: one path with one GET operation. -/
def c1OldDoc : J :=
  jo [("openapi", J.str "3.0.0"), ("info", jo [("title", J.str "API")]),
      ("paths", jo [("/users", jo [("get", jo [("responses",
        jo [("200", jo [("description", J.str "OK")])])])])])]

/-- Concrete document: the same path gains a POST operation. -/
def c1NewDoc : J :=
  jo [("openapi", J.str "3.0.0"), ("info", jo [("title", J.str "API")]),
      ("paths", jo [("/users", jo [
        ("get", jo [("responses", jo [("200", jo [("description", J.str "OK")])])]),
        ("post", jo [("responses", jo [("201", jo [])])])])])]

/-- Concrete well-shaped document used for the self-comparison witness. -/
def c2GoodDoc : J :=
  jo [("openapi", J.str "3.0.0"), ("info", jo [("title", J.str "t")]),
      ("paths", jo [("/a", jo [("get", jo [("responses", jo [("200", jo [])])])])])]

/-- Concrete Parser-accepted document whose path item is a list, so
normalization raises when it calls .items() on it. -/
def c2BadDoc : J :=
  jo [("openapi", J.str "3.0.0"), ("info", jo [("title", J.str "t")]),
      ("paths", jo [("/a", ja [J.num 1])])]

/-- Old spec with two common paths: /a loses GET and /a POST gains a
response, /b gains a method. -/
def c3OldSpec : List (String × J) :=
  [("openapi", J.str "3.0.0"), ("info", jo [("t", J.num 1)]),
   ("paths", jo [
     ("/a", jo [("get", jo []), ("post", jo [("responses", jo [("200", jo [])])])]),
     ("/b", jo [("get", jo [])])])]

/-- New spec matching c3OldSpec. -/
def c3NewSpec : List (String × J) :=
  [("openapi", J.str "3.0.0"), ("info", jo [("t", J.num 1)]),
   ("paths", jo [
     ("/a", jo [("post", jo [("responses", jo [("200", jo []), ("201", jo [])])])]),
     ("/b", jo [("get", jo []), ("put", jo [])])])]

/-- Old operation whose requestBody declares two content types, the first
without a schema. -/
def c4OldOp : List (String × J) :=
  [("requestBody", jo [("content", jo [
      ("a/b", jo []),
      ("c/d", jo [("schema", jo [("properties",
        jo [("p", jo [("type", J.str "string")])])])])])])]

/-- New operation like c4OldOp with a different property type under the
second content type. -/
def c4NewOp : List (String × J) :=
  [("requestBody", jo [("content", jo [
      ("a/b", jo []),
      ("c/d", jo [("schema", jo [("properties",
        jo [("p", jo [("type", J.str "integer")])])])])])])]

/-- Concrete Parser-accepted document with a cookie-located parameter: the
parameter loop indexes the bucket dict with "cookie" and raises KeyError. -/
def c5BadDoc : J :=
  jo [("openapi", J.str "3.0.0"), ("info", jo [("x", J.num 1)]),
      ("paths", jo [("/a", jo [("get", jo [("parameters",
        ja [jo [("in", J.str "cookie"), ("name", J.str "sid")]])])])])]

/-- Concrete document carrying an info key whose value is an empty mapping. -/
def c6NoInfoDoc : J :=
  jo [("openapi", J.str "3.0.0"), ("info", jo []), ("paths", jo [("/a", jo [])])]

/-- Concrete document with swagger and info but no paths key. -/
def c6NoPathsDoc : J :=
  jo [("swagger", J.str "2.0"), ("info", jo [("title", J.str "API")])]

/-- Document with paths /a and /b. -/
def c8ADoc : J :=
  jo [("openapi", J.str "3.0.0"), ("info", jo [("t", J.num 1)]),
      ("paths", jo [
        ("/a", jo [("get", jo [("responses", jo [("200", jo [])])])]),
        ("/b", jo [("get", jo [])])])]

/-- Document with path /a only. -/
def c8BDoc : J :=
  jo [("openapi", J.str "3.0.0"), ("info", jo [("t", J.num 1)]),
      ("paths", jo [("/a", jo [("get", jo [("responses", jo [("200", jo [])])])])])]

/-- Old spec with a string-typed query parameter. -/
def c10OldSpec : List (String × J) :=
  [("openapi", J.str "3.0.0"), ("info", jo [("t", J.num 1)]),
   ("paths", jo [("/u", jo [("get", jo [
     ("parameters", ja [jo [("name", J.str "id"), ("in", J.str "query"),
       ("schema", jo [("type", J.str "string")])]]),
     ("responses", jo [("200", jo [])])])])])]

/-- New spec where the parameter type becomes integer. -/
def c10NewSpec : List (String × J) :=
  [("openapi", J.str "3.0.0"), ("info", jo [("t", J.num 1)]),
   ("paths", jo [("/u", jo [("get", jo [
     ("parameters", ja [jo [("name", J.str "id"), ("in", J.str "query"),
       ("schema", jo [("type", J.str "integer")])]]),
     ("responses", jo [("200", jo [])])])])])]

/-- Result of a successful comparison, or an empty result on failure. -/
def resultOf (e : Except DiffService.CompareErr DiffResult) : DiffResult :=
  match e with
  | .ok r => r
  | .error _ => ⟨⟨0, 0, 0⟩, []⟩

/-- Success test for any Except value. -/
def isOkE {ε α : Type} (e : Except ε α) : Bool :=
  match e with
  | .ok _ => true
  | .error _ => false

/-- Validated spec of a parse-validation outcome, or [] on failure. -/
def okSpecOf (e : Except Parser.ParseErr (List (String × J))) : List (String × J) :=
  match e with
  | .ok s => s
  | .error _ => []

/-- Key presence on a decoded top-level mapping. -/
def docHasKey (j : J) (k : String) : Bool :=
  match j with
  | .obj kvs => dictHasKey kvs.toList k
  | _ => false

/-- First change of a Differ run, with an inert placeholder on failure or
empty output. -/
def firstChangeOf (e : Py (List Change)) : Change :=
  (changesOf e).headD ⟨.breaking, .endpoint, J.null, none, none, ""⟩

theorem JObj.toList_ofList : ∀ l : List (String × J), (JObj.ofList l).toList = l
  | [] => rfl
  | (k, v) :: t => by simp [JObj.ofList, JObj.toList, JObj.toList_ofList t]

mutual
theorem eqb_refl : (x : J) → eqb x x = true
  | .null => rfl
  | .bool b => by simp [eqb]
  | .num n => by simp [eqb]
  | .str s => by simp [eqb]
  | .arr xs => by simp [eqb, eqbArr_refl xs]
  | .obj kvs => by simp [eqb, eqbObj_refl kvs]

theorem eqbArr_refl : (xs : JArr) → eqbArr xs xs = true
  | .nil => rfl
  | .cons x t => by simp [eqbArr, eqb_refl x, eqbArr_refl t]

theorem eqbObj_refl : (kvs : JObj) → eqbObj kvs kvs = true
  | .nil => rfl
  | .cons k v t => by simp [eqbObj, eqb_refl v, eqbObj_refl t]
end

theorem dictHasKey_of_mem {α : Type} {l : List (String × α)} {kv : String × α}
    (h : kv ∈ l) : dictHasKey l kv.1 = true := by
  induction l with
  | nil => cases h
  | cons hd tl ih =>
      cases h with
      | head => simp [dictHasKey, dictLookup]
      | tail _ hm =>
          by_cases hk : hd.1 == kv.1
          · simp [dictHasKey, dictLookup, hk]
          · simpa [dictHasKey, dictLookup, hk] using ih hm

theorem dictLookup_of_mem_nodup {α : Type} {l : List (String × α)} {kv : String × α}
    (hn : NodupKeys l) (h : kv ∈ l) : dictLookup l kv.1 = some kv.2 := by
  induction l with
  | nil => cases h
  | cons hd tl ih =>
      rcases List.pairwise_cons.mp hn with ⟨hhd, htl⟩
      cases h with
      | head => simp [dictLookup]
      | tail _ hm =>
          have hne : hd.1 ≠ kv.1 := hhd kv hm
          have : (hd.1 == kv.1) = false := by
            simpa using hne
          simp [dictLookup, this, ih htl hm]

theorem dictSet_mem {α : Type} {l : List (String × α)} {k : String} {v : α}
    {kv : String × α} (h : kv ∈ dictSet l k v) : kv.1 = k ∨ kv ∈ l := by
  induction l with
  | nil =>
      simp [dictSet] at h
      subst h
      exact Or.inl rfl
  | cons hd tl ih =>
      by_cases hk : hd.1 == k
      · simp [dictSet, hk] at h
        rcases h with h | h
        · left
          rw [h]
          exact eq_of_beq hk
        · right
          exact List.mem_cons_of_mem hd h
      · simp [dictSet, hk] at h
        rcases h with h | h
        · right
          simp [h]
        · rcases ih h with h' | h'
          · exact Or.inl h'
          · exact Or.inr (List.mem_cons_of_mem hd h')

theorem dictSet_nodup {α : Type} {l : List (String × α)} {k : String} {v : α}
    (hn : NodupKeys l) : NodupKeys (dictSet l k v) := by
  induction l with
  | nil =>
      simp [dictSet, NodupKeys]
  | cons hd tl ih =>
      obtain ⟨k', v'⟩ := hd
      rcases List.pairwise_cons.mp hn with ⟨hhd, htl⟩
      by_cases hk : k' == k
      · rw [show dictSet ((k', v') :: tl) k v = (k', v) :: tl from by simp [dictSet, hk]]
        exact List.pairwise_cons.mpr ⟨fun b hb => hhd b hb, htl⟩
      · rw [show dictSet ((k', v') :: tl) k v = (k', v') :: dictSet tl k v from by
            simp [dictSet, hk]]
        refine List.pairwise_cons.mpr ⟨?_, ih htl⟩
        intro b hb
        rcases dictSet_mem hb with h' | h'
        · rw [h']
          intro hcon
          exact hk (beq_iff_eq.mpr hcon)
        · exact hhd b h'

theorem pdictHasKey_of_mem {l : List (J × J)} {kv : J × J}
    (h : kv ∈ l) : pdictHasKey l kv.1 = true := by
  induction l with
  | nil => cases h
  | cons hd tl ih =>
      cases h with
      | head => simp [pdictHasKey, pdictLookup, eqb_refl]
      | tail _ hm =>
          by_cases hk : eqb hd.1 kv.1
          · simp [pdictHasKey, pdictLookup, hk]
          · simpa [pdictHasKey, pdictLookup, hk] using ih hm

theorem pdictLookup_of_mem_nodup {l : List (J × J)} {kv : J × J}
    (hn : PNodupKeys l) (h : kv ∈ l) : pdictLookup l kv.1 = some kv.2 := by
  induction l with
  | nil => cases h
  | cons hd tl ih =>
      rcases List.pairwise_cons.mp hn with ⟨hhd, htl⟩
      cases h with
      | head => simp [pdictLookup, eqb_refl]
      | tail _ hm =>
          have : eqb hd.1 kv.1 = false := hhd kv hm
          simp [pdictLookup, this, ih htl hm]

theorem pdictSet_mem {l : List (J × J)} {k v : J} {kv : J × J}
    (h : kv ∈ pdictSet l k v) : kv.1 = k ∨ (∃ b ∈ l, kv.1 = b.1) := by
  induction l with
  | nil =>
      simp [pdictSet] at h
      subst h
      exact Or.inl rfl
  | cons hd tl ih =>
      by_cases hk : eqb hd.1 k
      · simp [pdictSet, hk] at h
        rcases h with h | h
        · right
          exact ⟨hd, List.mem_cons_self hd tl, by rw [h]⟩
        · right
          exact ⟨kv, List.mem_cons_of_mem hd h, rfl⟩
      · simp [pdictSet, hk] at h
        rcases h with h | h
        · right
          exact ⟨hd, List.mem_cons_self hd tl, by rw [h]⟩
        · rcases ih h with h' | h'
          · exact Or.inl h'
          · rcases h' with ⟨b, hb, he⟩
            exact Or.inr ⟨b, List.mem_cons_of_mem hd hb, he⟩

theorem pdictSet_nodup {l : List (J × J)} {k v : J}
    (hn : PNodupKeys l) : PNodupKeys (pdictSet l k v) := by
  induction l with
  | nil =>
      simp [pdictSet, PNodupKeys]
  | cons hd tl ih =>
      obtain ⟨k', v'⟩ := hd
      rcases List.pairwise_cons.mp hn with ⟨hhd, htl⟩
      by_cases hk : eqb k' k
      · rw [show pdictSet ((k', v') :: tl) k v = (k', v) :: tl from by simp [pdictSet, hk]]
        exact List.pairwise_cons.mpr ⟨fun b hb => hhd b hb, htl⟩
      · rw [show pdictSet ((k', v') :: tl) k v = (k', v') :: pdictSet tl k v from by
            simp [pdictSet, hk]]
        refine List.pairwise_cons.mpr ⟨?_, ih htl⟩
        intro b hb
        rcases pdictSet_mem hb with h' | h'
        · rw [h']
          simpa using hk
        · rcases h' with ⟨b', hb', he⟩
          rw [he]
          exact hhd b' hb'

theorem hasSubList_singleton {c : Char} : ∀ {l : List Char}, c ∈ l → hasSubList [c] l = true := by
  intro l
  induction l with
  | nil => intro h; cases h
  | cons hd tl ih =>
      intro h
      cases h with
      | head => simp [hasSubList, startsList]
      | tail _ hm => simp [hasSubList, startsList, ih hm]

theorem containsSelfElem {p : J} {es : List J} {x : J}
    (he : pyElems p = .ok es) (hx : x ∈ es) : pyContains x p = .ok true := by
  cases p with
  | null => simp [pyElems] at he
  | bool b => simp [pyElems] at he
  | num n => simp [pyElems] at he
  | str s =>
      simp [pyElems] at he
      subst he
      rcases List.mem_map.mp hx with ⟨c, hc, rfl⟩
      simp [pyContains, String.singleton]
      exact hasSubList_singleton hc
  | arr xs =>
      simp [pyElems] at he
      subst he
      simp [pyContains]
      exact ⟨x, hx, eqb_refl x⟩
  | obj kvs =>
      simp [pyElems] at he
      subst he
      rcases List.mem_map.mp hx with ⟨kv, hkv, rfl⟩
      simpa [pyContains, hashable] using dictHasKey_of_mem hkv

theorem filter_not_dictHasKey_self {α : Type} (l : List (String × α)) :
    (l.filter fun kv => ! dictHasKey l kv.1) = [] := by
  have h : ∀ kv ∈ l, ¬ ((fun kv => ! dictHasKey l kv.1) kv = true) := by
    intro kv hkv
    simp [dictHasKey_of_mem hkv]
  exact List.filter_eq_nil_iff.mpr h

theorem filter_not_pdictHasKey_self (l : List (J × J)) :
    (l.filter fun kv => ! pdictHasKey l kv.1) = [] := by
  have h : ∀ kv ∈ l, ¬ ((fun kv => ! pdictHasKey l kv.1) kv = true) := by
    intro kv hkv
    simp [pdictHasKey_of_mem hkv]
  exact List.filter_eq_nil_iff.mpr h

theorem endpointRemovedLoop_all_present {q : J} : ∀ {iter : List J},
    (∀ x ∈ iter, pyContains x q = .ok true) → Differ.endpointRemovedLoop q iter = .ok [] := by
  intro iter
  induction iter with
  | nil => intro _; rfl
  | cons x rest ih =>
      intro h
      have hx := h x (List.mem_cons_self x rest)
      have hr := ih fun y hy => h y (List.mem_cons_of_mem x hy)
      simp [Differ.endpointRemovedLoop, hx, hr]

theorem endpointAddedLoop_all_present {q : J} : ∀ {iter : List J},
    (∀ x ∈ iter, pyContains x q = .ok true) → Differ.endpointAddedLoop q iter = .ok [] := by
  intro iter
  induction iter with
  | nil => intro _; rfl
  | cons x rest ih =>
      intro h
      have hx := h x (List.mem_cons_self x rest)
      have hr := ih fun y hy => h y (List.mem_cons_of_mem x hy)
      simp [Differ.endpointAddedLoop, hx, hr]

theorem diff_endpoints_self {p : J} {out : List Change}
    (h : Differ.diff_endpoints p p = .ok out) : out = [] := by
  cases he : pyElems p with
  | error e => simp [Differ.diff_endpoints, he] at h
  | ok es =>
      have hall : ∀ x ∈ es, pyContains x p = .ok true := fun x hx => containsSelfElem he hx
      have h1 := endpointRemovedLoop_all_present hall
      have h2 := endpointAddedLoop_all_present hall
      simp [Differ.diff_endpoints, he, h1, h2] at h
      exact h

theorem paramsAssign_nodup {ps ps' : Normalizer.Params} {pin pname info : J}
    (hn : ParamsNodup ps) (h : Normalizer.paramsAssign ps pin pname info = .ok ps') :
    ParamsNodup ps' := by
  obtain ⟨hq, hp, hh, hb⟩ := hn
  unfold Normalizer.paramsAssign at h
  by_cases h1 : eqb pin (J.str "query") = true
  · rcases hhash : hashable pname with _ | _ <;> simp [h1, hhash] at h
    rw [← h]
    exact ⟨pdictSet_nodup hq, hp, hh, hb⟩
  · by_cases h2 : eqb pin (J.str "path") = true
    · rcases hhash : hashable pname with _ | _ <;> simp [h1, h2, hhash] at h
      rw [← h]
      exact ⟨hq, pdictSet_nodup hp, hh, hb⟩
    · by_cases h3 : eqb pin (J.str "header") = true
      · rcases hhash : hashable pname with _ | _ <;> simp [h1, h2, h3, hhash] at h
        rw [← h]
        exact ⟨hq, hp, pdictSet_nodup hh, hb⟩
      · by_cases h4 : eqb pin (J.str "body") = true
        · rcases hhash : hashable pname with _ | _ <;> simp [h1, h2, h3, h4, hhash] at h
          rw [← h]
          exact ⟨hq, hp, hh, pdictSet_nodup hb⟩
        · simp [h1, h2, h3, h4] at h

theorem paramLoopOpenapi3_nodup : ∀ {l : List J} {acc P : Normalizer.Params},
    ParamsNodup acc → Normalizer.paramLoopOpenapi3 acc l = .ok P → ParamsNodup P := by
  intro l
  induction l with
  | nil =>
      intro acc P hn h
      simp [Normalizer.paramLoopOpenapi3] at h
      rw [← h]
      exact hn
  | cons param rest ih =>
      intro acc P hn h
      unfold Normalizer.paramLoopOpenapi3 at h
      cases hin : pyGetD param "in" J.null with
      | error e => rw [hin] at h; exact absurd h (by simp)
      | ok pin =>
          rw [hin] at h
          cases hname : pyGetD param "name" J.null with
          | error e => rw [hname] at h; exact absurd h (by simp)
          | ok pname =>
              rw [hname] at h
              dsimp only at h
              by_cases ht : (truthy pin && truthy pname) = true
              · rw [if_pos ht] at h
                cases hreq : pyGetD param "required" (J.bool false) with
                | error e => rw [hreq] at h; exact absurd h (by simp)
                | ok req =>
                    rw [hreq] at h
                    cases hsch : pyGetD param "schema" (J.obj .nil) with
                    | error e => rw [hsch] at h; exact absurd h (by simp)
                    | ok sch =>
                        rw [hsch] at h
                        dsimp only at h
                        cases hassign : Normalizer.paramsAssign acc pin pname
                            (J.obj (JObj.ofList [("required", req), ("schema", sch)])) with
                        | error e => rw [hassign] at h; exact absurd h (by simp)
                        | ok acc2 =>
                            rw [hassign] at h
                            exact ih (paramsAssign_nodup hn hassign) h
              · rw [if_neg ht] at h
                exact ih hn h

theorem paramLoopSwagger2_nodup : ∀ {l : List J} {acc P : Normalizer.Params},
    ParamsNodup acc → Normalizer.paramLoopSwagger2 acc l = .ok P → ParamsNodup P := by
  intro l
  induction l with
  | nil =>
      intro acc P hn h
      simp [Normalizer.paramLoopSwagger2] at h
      rw [← h]
      exact hn
  | cons param rest ih =>
      intro acc P hn h
      unfold Normalizer.paramLoopSwagger2 at h
      cases hin : pyGetD param "in" J.null with
      | error e => rw [hin] at h; exact absurd h (by simp)
      | ok pin =>
          rw [hin] at h
          cases hname : pyGetD param "name" J.null with
          | error e => rw [hname] at h; exact absurd h (by simp)
          | ok pname =>
              rw [hname] at h
              dsimp only at h
              by_cases ht : (truthy pin && truthy pname) = true
              · rw [if_pos ht] at h
                cases hreq : pyGetD param "required" (J.bool false) with
                | error e => rw [hreq] at h; exact absurd h (by simp)
                | ok req =>
                    rw [hreq] at h
                    cases htyp : pyGetD param "type" J.null with
                    | error e => rw [htyp] at h; exact absurd h (by simp)
                    | ok typ =>
                        rw [htyp] at h
                        dsimp only at h
                        cases hassign : Normalizer.paramsAssign acc pin pname
                            (J.obj (JObj.ofList [("required", req), ("type", typ)])) with
                        | error e => rw [hassign] at h; exact absurd h (by simp)
                        | ok acc2 =>
                            rw [hassign] at h
                            exact ih (paramsAssign_nodup hn hassign) h
              · rw [if_neg ht] at h
                exact ih hn h

theorem bodyContentLoop_nodup : ∀ {l : List (String × J)} {rbReq : J} {acc P : Normalizer.Params},
    ParamsNodup acc → Normalizer.bodyContentLoop rbReq acc l = .ok P → ParamsNodup P := by
  intro l
  induction l with
  | nil =>
      intro rbReq acc P hn h
      simp [Normalizer.bodyContentLoop] at h
      rw [← h]
      exact hn
  | cons ct rest ih =>
      intro rbReq acc P hn h
      obtain ⟨content_type, content_spec⟩ := ct
      unfold Normalizer.bodyContentLoop at h
      cases hsch : pyGetD content_spec "schema" (J.obj .nil) with
      | error e => rw [hsch] at h; exact absurd h (by simp)
      | ok schema =>
          rw [hsch] at h
          dsimp only at h
          obtain ⟨hq, hp, hh, hb⟩ := hn
          refine ih ?_ h
          exact ⟨hq, hp, hh, pdictSet_nodup hb⟩

theorem extract_parameters_nodup {op : List (String × J)} {flag : Bool} {P : Normalizer.Params}
    (h : Normalizer.extract_parameters op flag = .ok P) : ParamsNodup P := by
  have hbase : ParamsNodup ⟨[], [], [], []⟩ :=
    ⟨List.Pairwise.nil, List.Pairwise.nil, List.Pairwise.nil, List.Pairwise.nil⟩
  unfold Normalizer.extract_parameters at h
  cases flag with
  | false =>
      simp only [Bool.false_eq_true, if_false] at h
      cases hel : pyElems (objGetD op "parameters" (J.arr .nil)) with
      | error e => rw [hel] at h; exact absurd h (by simp)
      | ok params =>
          rw [hel] at h
          dsimp only at h
          exact paramLoopSwagger2_nodup hbase h
  | true =>
      simp only [if_true] at h
      cases hel : pyElems (objGetD op "parameters" (J.arr .nil)) with
      | error e => rw [hel] at h; exact absurd h (by simp)
      | ok params =>
          rw [hel] at h
          dsimp only at h
          cases hloop : Normalizer.paramLoopOpenapi3 ⟨[], [], [], []⟩ params with
          | error e => rw [hloop] at h; exact absurd h (by simp)
          | ok acc =>
              rw [hloop] at h
              dsimp only at h
              have hacc := paramLoopOpenapi3_nodup hbase hloop
              by_cases hrb : truthy (objGetD op "requestBody" (J.obj .nil)) = true
              · rw [if_pos hrb] at h
                cases hc : pyGetD (objGetD op "requestBody" (J.obj .nil)) "content" (J.obj .nil) with
                | error e => rw [hc] at h; exact absurd h (by simp)
                | ok content =>
                    rw [hc] at h
                    dsimp only at h
                    cases hits : pyItems content with
                    | error e => rw [hits] at h; exact absurd h (by simp)
                    | ok cts =>
                        rw [hits] at h
                        dsimp only at h
                        cases hreq : pyGetD (objGetD op "requestBody" (J.obj .nil)) "required" (J.bool false) with
                        | error e => rw [hreq] at h; exact absurd h (by simp)
                        | ok rbReq =>
                            rw [hreq] at h
                            dsimp only at h
                            exact bodyContentLoop_nodup hacc h
              · rw [if_neg hrb] at h
                injection h with h
                rw [← h]
                exact hacc

theorem paramAddedLoop_all_present {path : J} {method : String} {oldIn : List (J × J)} :
    ∀ {iter : List (J × J)}, (∀ kv ∈ iter, pdictHasKey oldIn kv.1 = true) →
    Differ.paramAddedLoop path method oldIn iter = .ok [] := by
  intro iter
  induction iter with
  | nil => intro _; rfl
  | cons kv rest ih =>
      intro h
      obtain ⟨name, info⟩ := kv
      have hk := h (name, info) (List.mem_cons_self _ _)
      have hr := ih fun y hy => h y (List.mem_cons_of_mem _ hy)
      simp only [Differ.paramAddedLoop]
      rw [show pdictHasKey oldIn (name, info).1 = true from hk]
      simp [hr]

theorem paramTypeLoop_self {path : J} {method : String} {newIn : List (J × J)}
    (hn : PNodupKeys newIn) :
    ∀ {iter : List (J × J)} {out : List Change}, (∀ kv ∈ iter, kv ∈ newIn) →
    Differ.paramTypeLoop path method newIn iter = .ok out → out = [] := by
  intro iter
  induction iter with
  | nil =>
      intro out _ h
      simp [Differ.paramTypeLoop] at h
      exact h
  | cons kv rest ih =>
      intro out hmem h
      obtain ⟨name, oldInfo⟩ := kv
      have hk : pdictLookup newIn name = some oldInfo :=
        pdictLookup_of_mem_nodup hn (hmem _ (List.mem_cons_self _ _))
      unfold Differ.paramTypeLoop at h
      rw [hk] at h
      dsimp only at h
      cases hts : Differ.paramTypeStr oldInfo with
      | error e => rw [hts] at h; exact absurd h (by simp)
      | ok t =>
          rw [hts] at h
          try dsimp only at h
          rw [show (t != t && t != "" && t != "") = false from by simp] at h
          try dsimp only at h
          cases hrest : Differ.paramTypeLoop path method newIn rest with
          | error e => rw [hrest] at h; exact absurd h (by simp)
          | ok tail =>
              rw [hrest] at h
              have htail := ih (fun y hy => hmem y (List.mem_cons_of_mem _ hy)) hrest
              subst htail
              simpa using h.symm

theorem paramLocDiff_self {path : J} {method : String} {b : List (J × J)}
    (hn : PNodupKeys b) {out : List Change}
    (h : Differ.paramLocDiff path method b b = .ok out) : out = [] := by
  unfold Differ.paramLocDiff at h
  rw [filter_not_pdictHasKey_self] at h
  rw [paramAddedLoop_all_present fun kv hkv => pdictHasKey_of_mem hkv] at h
  dsimp only at h
  cases htl : Differ.paramTypeLoop path method b b with
  | error e => rw [htl] at h; exact absurd h (by simp)
  | ok tail =>
      rw [htl] at h
      have htail := paramTypeLoop_self hn (fun y hy => hy) htl
      subst htail
      simpa using h.symm

theorem diff_parameters_self {path : J} {method : String} {op : List (String × J)}
    {flag : Bool} {out : List Change}
    (h : Differ.diff_parameters path method op op flag = .ok out) : out = [] := by
  unfold Differ.diff_parameters at h
  cases hex : Normalizer.extract_parameters op flag with
  | error e => rw [hex] at h; exact absurd h (by simp)
  | ok P =>
      rw [hex] at h
      dsimp only at h
      obtain ⟨hq, hp, hh, _⟩ := extract_parameters_nodup hex
      cases h1 : Differ.paramLocDiff path method P.query P.query with
      | error e => rw [h1] at h; exact absurd h (by simp)
      | ok c1 =>
          rw [h1] at h
          dsimp only at h
          cases h2 : Differ.paramLocDiff path method P.path P.path with
          | error e => rw [h2] at h; exact absurd h (by simp)
          | ok c2 =>
              rw [h2] at h
              dsimp only at h
              cases h3 : Differ.paramLocDiff path method P.header P.header with
              | error e => rw [h3] at h; exact absurd h (by simp)
              | ok c3 =>
                  rw [h3] at h
                  have e1 := paramLocDiff_self hq h1
                  have e2 := paramLocDiff_self hp h2
                  have e3 := paramLocDiff_self hh h3
                  subst e1; subst e2; subst e3
                  simpa using h.symm

theorem schemaRemovedLoop_all_present {path : J} {method : String} {newProps : J} :
    ∀ {iter : List J}, (∀ x ∈ iter, pyContains x newProps = .ok true) →
    Differ.schemaRemovedLoop path method newProps iter = .ok [] := by
  intro iter
  induction iter with
  | nil => intro _; rfl
  | cons x rest ih =>
      intro h
      have hx := h x (List.mem_cons_self x rest)
      have hr := ih fun y hy => h y (List.mem_cons_of_mem x hy)
      simp [Differ.schemaRemovedLoop, hx, hr]

theorem schemaAddedLoop_all_present {path : J} {method : String} {oldProps : J}
    {newReq : List J} :
    ∀ {iter : List J}, (∀ x ∈ iter, pyContains x oldProps = .ok true) →
    Differ.schemaAddedLoop path method oldProps newReq iter = .ok [] := by
  intro iter
  induction iter with
  | nil => intro _; rfl
  | cons x rest ih =>
      intro h
      have hx := h x (List.mem_cons_self x rest)
      have hr := ih fun y hy => h y (List.mem_cons_of_mem x hy)
      simp [Differ.schemaAddedLoop, hx, hr]

theorem schemaTypeLoop_self {path : J} {method : String} {props : J} :
    ∀ {iter : List J} {out : List Change}, (∀ x ∈ iter, pyContains x props = .ok true) →
    Differ.schemaTypeLoop path method props props iter = .ok out → out = [] := by
  intro iter
  induction iter with
  | nil =>
      intro out _ h
      simp [Differ.schemaTypeLoop] at h
      exact h
  | cons x rest ih =>
      intro out hmem h
      have hx := hmem x (List.mem_cons_self x rest)
      unfold Differ.schemaTypeLoop at h
      rw [hx] at h
      try dsimp only at h
      rw [show (! true) = false from rfl] at h
      try dsimp only at h
      cases hix : pyIndex props x with
      | error e => rw [hix] at h; exact absurd h (by simp)
      | ok v =>
          rw [hix] at h
          try dsimp only at h
          cases hgt : pyGetD v "type" (J.str "") with
          | error e => rw [hgt] at h; exact absurd h (by simp)
          | ok t =>
              rw [hgt] at h
              try dsimp only at h
              rw [show (pyStr t != pyStr t && pyStr t != "" && pyStr t != "") = false from by simp] at h
              try dsimp only at h
              cases hrest : Differ.schemaTypeLoop path method props props rest with
              | error e => rw [hrest] at h; exact absurd h (by simp)
              | ok tail =>
                  rw [hrest] at h
                  have htail := ih (fun y hy => hmem y (List.mem_cons_of_mem x hy)) hrest
                  subst htail
                  simpa using h.symm

theorem diff_schema_self {path : J} {method : String} {s : J} {loc : String}
    {out : List Change} (h : Differ.diff_schema path method s s loc = .ok out) : out = [] := by
  unfold Differ.diff_schema at h
  cases hprops : pyGetD s "properties" (J.obj .nil) with
  | error e => rw [hprops] at h; exact absurd h (by simp)
  | ok props =>
      rw [hprops] at h
      try dsimp only at h
      cases hreq : pyGetD s "required" (J.arr .nil) with
      | error e => rw [hreq] at h; exact absurd h (by simp)
      | ok req =>
          rw [hreq] at h
          try dsimp only at h
          cases hset : pySetOf req with
          | error e => rw [hset] at h; exact absurd h (by simp)
          | ok reqSet =>
              rw [hset] at h
              try dsimp only at h
              cases hels : pyElems props with
              | error e => rw [hels] at h; exact absurd h (by simp)
              | ok names =>
                  rw [hels] at h
                  try dsimp only at h
                  have hall : ∀ x ∈ names, pyContains x props = .ok true :=
                    fun x hx => containsSelfElem hels hx
                  rw [schemaRemovedLoop_all_present hall] at h
                  try dsimp only at h
                  rw [schemaAddedLoop_all_present hall] at h
                  try dsimp only at h
                  cases htl : Differ.schemaTypeLoop path method props props names with
                  | error e => rw [htl] at h; exact absurd h (by simp)
                  | ok changed =>
                      rw [htl] at h
                      have hch := schemaTypeLoop_self hall htl
                      subst hch
                      simpa using h.symm

theorem diff_request_body_self {path : J} {method : String} {op : List (String × J)}
    {out : List Change} (h : Differ.diff_request_body path method op op = .ok out) :
    out = [] := by
  unfold Differ.diff_request_body at h
  by_cases hb : (! truthy (objGetD op "requestBody" (J.obj .nil)) &&
      ! truthy (objGetD op "requestBody" (J.obj .nil))) = true
  · rw [if_pos hb] at h
    simpa using h.symm
  · rw [if_neg hb] at h
    cases hex : Differ.extract_schema_from_request_body (objGetD op "requestBody" (J.obj .nil)) with
    | error e => rw [hex] at h; exact absurd h (by simp)
    | ok sch =>
        rw [hex] at h
        try dsimp only at h
        by_cases hts : (! truthy sch || ! truthy sch) = true
        · rw [if_pos hts] at h
          simpa using h.symm
        · rw [if_neg hts] at h
          exact diff_schema_self h

theorem diff_responses_self {path : J} {method : String} {op : List (String × J)}
    {out : List Change} (h : Differ.diff_responses path method op op = .ok out) :
    out = [] := by
  unfold Differ.diff_responses at h
  cases hre : Normalizer.extract_responses op with
  | error e => rw [hre] at h; exact absurd h (by simp)
  | ok R =>
      rw [hre] at h
      try dsimp only at h
      rw [filter_not_dictHasKey_self] at h
      simpa using h.symm

theorem diff_operation_self {path : J} {method : String} {op : List (String × J)}
    {out : List Change} (h : Differ.diff_operation path method op op = .ok out) :
    out = [] := by
  unfold Differ.diff_operation at h
  dsimp only at h
  cases hp : Differ.diff_parameters path method op op
      (dictHasKey op "parameters" || dictHasKey op "requestBody") with
  | error e => rw [hp] at h; exact absurd h (by simp)
  | ok ps =>
      rw [hp] at h
      try dsimp only at h
      have hps := diff_parameters_self hp
      by_cases h3 : (dictHasKey op "parameters" || dictHasKey op "requestBody") = true
      · rw [h3] at h
        try dsimp only at h
        cases hbody : Differ.diff_request_body path method op op with
        | error e => rw [hbody] at h; exact absurd h (by simp)
        | ok bs =>
            rw [hbody] at h
            try dsimp only at h
            have hbs := diff_request_body_self hbody
            cases hresp : Differ.diff_responses path method op op with
            | error e => rw [hresp] at h; exact absurd h (by simp)
            | ok rs =>
                rw [hresp] at h
                have hrs := diff_responses_self hresp
                subst hps; subst hbs; subst hrs
                simpa using h.symm
      · rw [show (dictHasKey op "parameters" || dictHasKey op "requestBody") = false from by
            simpa using h3] at h
        try dsimp only at h
        cases hresp : Differ.diff_responses path method op op with
        | error e => rw [hresp] at h; exact absurd h (by simp)
        | ok rs =>
            rw [hresp] at h
            have hrs := diff_responses_self hresp
            subst hps; subst hrs
            simpa using h.symm

theorem opMethodsGo_nodup : ∀ {its : List (String × J)} {acc : List (String × List (String × J))},
    NodupKeys acc → NodupKeys (Differ.opMethodsGo acc its) := by
  intro its
  induction its with
  | nil => intro acc hn; simpa [Differ.opMethodsGo] using hn
  | cons kv rest ih =>
      intro acc hn
      obtain ⟨k, v⟩ := kv
      cases v with
      | null => simpa [Differ.opMethodsGo] using ih hn
      | bool b => simpa [Differ.opMethodsGo] using ih hn
      | num n => simpa [Differ.opMethodsGo] using ih hn
      | str s => simpa [Differ.opMethodsGo] using ih hn
      | arr xs => simpa [Differ.opMethodsGo] using ih hn
      | obj kvs =>
          simp only [Differ.opMethodsGo]
          by_cases hm : METHODS.contains (pyLower k) = true
          · rw [hm]
            simpa using ih (dictSet_nodup hn)
          · rw [show METHODS.contains (pyLower k) = false from by simpa using hm]
            simpa using ih hn

theorem opMethods_nodup {its : List (String × J)} : NodupKeys (Differ.opMethods its) :=
  opMethodsGo_nodup List.Pairwise.nil

theorem opPairLoop_self {path : J} {M : List (String × List (String × J))}
    (hn : NodupKeys M) :
    ∀ {iter : List (String × List (String × J))} {out : List Change},
    (∀ kv ∈ iter, kv ∈ M) → Differ.opPairLoop path M iter = .ok out → out = [] := by
  intro iter
  induction iter with
  | nil =>
      intro out _ h
      simp [Differ.opPairLoop] at h
      exact h
  | cons kv rest ih =>
      intro out hmem h
      obtain ⟨m, op⟩ := kv
      have hlk : dictLookup M m = some op :=
        dictLookup_of_mem_nodup hn (hmem _ (List.mem_cons_self _ _))
      unfold Differ.opPairLoop at h
      rw [hlk] at h
      try dsimp only at h
      cases hdo : Differ.diff_operation path m op op with
      | error e => rw [hdo] at h; exact absurd h (by simp)
      | ok cs =>
          rw [hdo] at h
          try dsimp only at h
          cases hrest : Differ.opPairLoop path M rest with
          | error e => rw [hrest] at h; exact absurd h (by simp)
          | ok tail =>
              rw [hrest] at h
              have h1 := diff_operation_self hdo
              have h2 := ih (fun y hy => hmem y (List.mem_cons_of_mem _ hy)) hrest
              subst h1; subst h2
              simpa using h.symm

theorem opsLoop_self {p : J} :
    ∀ {iter : List J} {out : List Change}, (∀ x ∈ iter, pyContains x p = .ok true) →
    Differ.opsLoop p p iter = .ok out → out = [] := by
  intro iter
  induction iter with
  | nil =>
      intro out _ h
      simp [Differ.opsLoop] at h
      exact h
  | cons x rest ih =>
      intro out hmem h
      have hx := hmem x (List.mem_cons_self x rest)
      unfold Differ.opsLoop at h
      rw [hx] at h
      try dsimp only at h
      rw [if_pos rfl] at h
      try dsimp only at h
      cases hix : pyIndex p x with
      | error e => rw [hix] at h; exact absurd h (by simp)
      | ok item =>
          rw [hix] at h
          try dsimp only at h
          cases hits : pyItems item with
          | error e => rw [hits] at h; exact absurd h (by simp)
          | ok its =>
              rw [hits] at h
              try dsimp only at h
              rw [filter_not_dictHasKey_self] at h
              try dsimp only at h
              cases hpair : Differ.opPairLoop x (Differ.opMethods its) (Differ.opMethods its) with
              | error e => rw [hpair] at h; exact absurd h (by simp)
              | ok ops =>
                  rw [hpair] at h
                  try dsimp only at h
                  cases hrest : Differ.opsLoop p p rest with
                  | error e => rw [hrest] at h; exact absurd h (by simp)
                  | ok tail =>
                      rw [hrest] at h
                      have h1 := opPairLoop_self opMethods_nodup (fun y hy => hy) hpair
                      have h2 := ih (fun y hy => hmem y (List.mem_cons_of_mem x hy)) hrest
                      subst h1; subst h2
                      simpa using h.symm

theorem diff_operations_self {p : J} {out : List Change}
    (h : Differ.diff_operations p p = .ok out) : out = [] := by
  unfold Differ.diff_operations at h
  cases hels : pyElems p with
  | error e => rw [hels] at h; exact absurd h (by simp)
  | ok es =>
      rw [hels] at h
      try dsimp only at h
      exact opsLoop_self (fun x hx => containsSelfElem hels hx) h

theorem diff_self {s : List (String × J)} {l : List Change}
    (h : Differ.diff s s = .ok l) : l = [] := by
  unfold Differ.diff at h
  cases hn : Normalizer.normalize s with
  | error e => rw [hn] at h; exact absurd h (by simp)
  | ok N =>
      rw [hn] at h
      try dsimp only at h
      cases hep : Differ.diff_endpoints (objGetD N "paths" (J.obj .nil))
          (objGetD N "paths" (J.obj .nil)) with
      | error e => rw [hep] at h; exact absurd h (by simp)
      | ok es =>
          rw [hep] at h
          try dsimp only at h
          cases hops : Differ.diff_operations (objGetD N "paths" (J.obj .nil))
              (objGetD N "paths" (J.obj .nil)) with
          | error e => rw [hops] at h; exact absurd h (by simp)
          | ok os =>
              rw [hops] at h
              have h1 := diff_endpoints_self hep
              have h2 := diff_operations_self hops
              subst h1; subst h2
              simpa using h.symm

theorem classify_parameter_change_shape (path : J) (method : String) (name : J)
    (kind : String) (req : J) :
    (Classifier.classify_parameter_change path method name kind req).category = .parameter ∧
    (Classifier.classify_parameter_change path method name kind req).method =
      some (pyUpper method) := by
  unfold Classifier.classify_parameter_change
  by_cases h1 : (kind == "removed") = true <;> by_cases h2 : (kind == "added") = true <;>
    by_cases h3 : (kind == "type_changed") = true <;> by_cases h4 : truthy req = true <;>
    simp [h1, h2, h3, h4]

theorem classify_schema_change_shape (path : J) (method : String) (name : J)
    (kind : String) (req : J) :
    (Classifier.classify_schema_change path method name kind req).category = .schema ∧
    (Classifier.classify_schema_change path method name kind req).method =
      some (pyUpper method) := by
  unfold Classifier.classify_schema_change
  by_cases h1 : (kind == "removed") = true <;> by_cases h2 : (kind == "added") = true <;>
    by_cases h3 : (kind == "type_changed") = true <;> by_cases h4 : truthy req = true <;>
    simp [h1, h2, h3, h4]

theorem classify_response_change_shape (path : J) (method status_code kind : String) :
    (Classifier.classify_response_change path method status_code kind).category = .response ∧
    (Classifier.classify_response_change path method status_code kind).method =
      some (pyUpper method) := by
  unfold Classifier.classify_response_change
  by_cases h1 : (kind == "removed") = true <;> by_cases h2 : (kind == "added") = true <;>
    by_cases h3 : startsList status_code.data ['2'] = true <;>
    simp [h1, h2, h3]

theorem endpointRemovedLoop_eq {q : J} : ∀ {iter : List J} {out : List Change},
    Differ.endpointRemovedLoop q iter = .ok out →
    out = (iter.filter fun x => notInB x q).map Classifier.classify_endpoint_removal := by
  intro iter
  induction iter with
  | nil =>
      intro out h
      simp [Differ.endpointRemovedLoop] at h
      simp [h]
  | cons x rest ih =>
      intro out h
      unfold Differ.endpointRemovedLoop at h
      cases hc : pyContains x q with
      | error e => rw [hc] at h; exact absurd h (by simp)
      | ok b =>
          rw [hc] at h
          try dsimp only at h
          cases hrest : Differ.endpointRemovedLoop q rest with
          | error e => rw [hrest] at h; exact absurd h (by simp)
          | ok tail =>
              rw [hrest] at h
              have htail := ih hrest
              have hnot : notInB x q = ! b := by simp [notInB, hc]
              cases b with
              | true =>
                  simp at h
                  rw [← h, htail]
                  simp [List.filter_cons, hnot]
              | false =>
                  simp at h
                  rw [← h, htail]
                  simp [List.filter_cons, hnot]

theorem endpointAddedLoop_eq {q : J} : ∀ {iter : List J} {out : List Change},
    Differ.endpointAddedLoop q iter = .ok out →
    out = (iter.filter fun x => notInB x q).map Classifier.classify_endpoint_addition := by
  intro iter
  induction iter with
  | nil =>
      intro out h
      simp [Differ.endpointAddedLoop] at h
      simp [h]
  | cons x rest ih =>
      intro out h
      unfold Differ.endpointAddedLoop at h
      cases hc : pyContains x q with
      | error e => rw [hc] at h; exact absurd h (by simp)
      | ok b =>
          rw [hc] at h
          try dsimp only at h
          cases hrest : Differ.endpointAddedLoop q rest with
          | error e => rw [hrest] at h; exact absurd h (by simp)
          | ok tail =>
              rw [hrest] at h
              have htail := ih hrest
              have hnot : notInB x q = ! b := by simp [notInB, hc]
              cases b with
              | true =>
                  simp at h
                  rw [← h, htail]
                  simp [List.filter_cons, hnot]
              | false =>
                  simp at h
                  rw [← h, htail]
                  simp [List.filter_cons, hnot]

theorem diff_endpoints_eq {p q : J} {out : List Change}
    (h : Differ.diff_endpoints p q = .ok out) :
    ∃ olds news, pyElems p = .ok olds ∧ pyElems q = .ok news ∧
      out = (olds.filter fun x => notInB x q).map Classifier.classify_endpoint_removal
         ++ (news.filter fun x => notInB x p).map Classifier.classify_endpoint_addition := by
  unfold Differ.diff_endpoints at h
  cases h1 : pyElems p with
  | error e => rw [h1] at h; exact absurd h (by simp)
  | ok olds =>
      rw [h1] at h
      try dsimp only at h
      cases h2 : Differ.endpointRemovedLoop q olds with
      | error e => rw [h2] at h; exact absurd h (by simp)
      | ok removed =>
          rw [h2] at h
          try dsimp only at h
          cases h3 : pyElems q with
          | error e => rw [h3] at h; exact absurd h (by simp)
          | ok news =>
              rw [h3] at h
              try dsimp only at h
              cases h4 : Differ.endpointAddedLoop p news with
              | error e => rw [h4] at h; exact absurd h (by simp)
              | ok added =>
                  rw [h4] at h
                  refine ⟨olds, news, rfl, rfl, ?_⟩
                  rw [← endpointRemovedLoop_eq h2, ← endpointAddedLoop_eq h4]
                  simpa using h.symm

theorem paramAddedLoop_mem {path : J} {method : String} {oldIn : List (J × J)} :
    ∀ {iter : List (J × J)} {out : List Change},
    Differ.paramAddedLoop path method oldIn iter = .ok out →
    ∀ c ∈ out, c.category = .parameter ∧ c.method = some (pyUpper method) := by
  intro iter
  induction iter with
  | nil =>
      intro out h
      simp [Differ.paramAddedLoop] at h
      intro c hc
      rw [h] at hc
      cases hc
  | cons kv rest ih =>
      intro out h
      obtain ⟨name, info⟩ := kv
      unfold Differ.paramAddedLoop at h
      by_cases hk : pdictHasKey oldIn name = true
      · rw [show pdictHasKey oldIn (name, info).1 = true from hk] at h
        try dsimp only at h
        cases hrest : Differ.paramAddedLoop path method oldIn rest with
        | error e => rw [hrest] at h; exact absurd h (by simp)
        | ok tail =>
            rw [hrest] at h
            have hx := Except.ok.inj h
            intro c hc
            rw [← hx] at hc
            simp only [List.nil_append] at hc
            exact ih hrest c hc
      · rw [show pdictHasKey oldIn (name, info).1 = false from by simpa using hk] at h
        try dsimp only at h
        cases hreq : pyGetD info "required" (J.bool false) with
        | error e => rw [hreq] at h; exact absurd h (by simp)
        | ok req =>
            rw [hreq] at h
            try dsimp only at h
            cases hrest : Differ.paramAddedLoop path method oldIn rest with
            | error e => rw [hrest] at h; exact absurd h (by simp)
            | ok tail =>
                rw [hrest] at h
                have hx := Except.ok.inj h
                intro c hc
                rw [← hx] at hc
                rcases List.mem_append.mp hc with hc' | hc'
                · rcases List.mem_singleton.mp hc' with rfl
                  exact classify_parameter_change_shape path method name "added" req
                · exact ih hrest c hc'

theorem paramTypeLoop_mem {path : J} {method : String} {newIn : List (J × J)} :
    ∀ {iter : List (J × J)} {out : List Change},
    Differ.paramTypeLoop path method newIn iter = .ok out →
    ∀ c ∈ out, c.category = .parameter ∧ c.method = some (pyUpper method) := by
  intro iter
  induction iter with
  | nil =>
      intro out h
      simp [Differ.paramTypeLoop] at h
      intro c hc
      rw [h] at hc
      cases hc
  | cons kv rest ih =>
      intro out h
      obtain ⟨name, oldInfo⟩ := kv
      unfold Differ.paramTypeLoop at h
      cases hlk : pdictLookup newIn name with
      | none =>
          rw [show pdictLookup newIn (name, oldInfo).1 = none from hlk] at h
          try dsimp only at h
          cases hrest : Differ.paramTypeLoop path method newIn rest with
          | error e => rw [hrest] at h; exact absurd h (by simp)
          | ok tail =>
              rw [hrest] at h
              have hx := Except.ok.inj h
              intro c hc
              rw [← hx] at hc
              simp only [List.nil_append] at hc
              exact ih hrest c hc
      | some newInfo =>
          rw [show pdictLookup newIn (name, oldInfo).1 = some newInfo from hlk] at h
          try dsimp only at h
          cases hts : Differ.paramTypeStr oldInfo with
          | error e => rw [hts] at h; exact absurd h (by simp)
          | ok oldT =>
              rw [hts] at h
              try dsimp only at h
              cases hts2 : Differ.paramTypeStr newInfo with
              | error e => rw [hts2] at h; exact absurd h (by simp)
              | ok newT =>
                  rw [hts2] at h
                  try dsimp only at h
                  cases hrest : Differ.paramTypeLoop path method newIn rest with
                  | error e => rw [hrest] at h; exact absurd h (by simp)
                  | ok tail =>
                      rw [hrest] at h
                      have hx := Except.ok.inj h
                      intro c hc
                      rw [← hx] at hc
                      rcases List.mem_append.mp hc with hc' | hc'
                      · by_cases hcond : (oldT != newT && oldT != "" && newT != "") = true
                        · simp only [hcond, if_true] at hc'
                          rcases List.mem_singleton.mp hc' with rfl
                          exact classify_parameter_change_shape path method name
                            "type_changed" (J.bool false)
                        · simp only [hcond, if_false] at hc'
                          cases hc'
                      · exact ih hrest c hc'

theorem paramLocDiff_mem {path : J} {method : String} {oldIn newIn : List (J × J)}
    {out : List Change} (h : Differ.paramLocDiff path method oldIn newIn = .ok out) :
    ∀ c ∈ out, c.category = .parameter ∧ c.method = some (pyUpper method) := by
  unfold Differ.paramLocDiff at h
  cases ha : Differ.paramAddedLoop path method oldIn newIn with
  | error e => rw [ha] at h; exact absurd h (by simp)
  | ok added =>
      rw [ha] at h
      try dsimp only at h
      cases ht : Differ.paramTypeLoop path method newIn oldIn with
      | error e => rw [ht] at h; exact absurd h (by simp)
      | ok changed =>
          rw [ht] at h
          have hx := Except.ok.inj h
          intro c hc
          rw [← hx] at hc
          rcases List.mem_append.mp hc with hc' | hc'
          · rcases List.mem_append.mp hc' with hc'' | hc''
            · rcases List.mem_map.mp hc'' with ⟨kv, _, rfl⟩
              exact classify_parameter_change_shape path method kv.1 "removed" (J.bool false)
            · exact paramAddedLoop_mem ha c hc''
          · exact paramTypeLoop_mem ht c hc'

theorem diff_parameters_mem {path : J} {method : String} {old_op new_op : List (String × J)}
    {flag : Bool} {out : List Change}
    (h : Differ.diff_parameters path method old_op new_op flag = .ok out) :
    ∀ c ∈ out, c.category = .parameter ∧ c.method = some (pyUpper method) := by
  unfold Differ.diff_parameters at h
  cases he1 : Normalizer.extract_parameters old_op flag with
  | error e => rw [he1] at h; exact absurd h (by simp)
  | ok oldP =>
      rw [he1] at h
      try dsimp only at h
      cases he2 : Normalizer.extract_parameters new_op flag with
      | error e => rw [he2] at h; exact absurd h (by simp)
      | ok newP =>
          rw [he2] at h
          try dsimp only at h
          cases h1 : Differ.paramLocDiff path method oldP.query newP.query with
          | error e => rw [h1] at h; exact absurd h (by simp)
          | ok c1 =>
              rw [h1] at h
              try dsimp only at h
              cases h2 : Differ.paramLocDiff path method oldP.path newP.path with
              | error e => rw [h2] at h; exact absurd h (by simp)
              | ok c2 =>
                  rw [h2] at h
                  try dsimp only at h
                  cases h3 : Differ.paramLocDiff path method oldP.header newP.header with
                  | error e => rw [h3] at h; exact absurd h (by simp)
                  | ok c3 =>
                      rw [h3] at h
                      have hx := Except.ok.inj h
                      intro c hc
                      rw [← hx] at hc
                      rcases List.mem_append.mp hc with hc' | hc'
                      · rcases List.mem_append.mp hc' with hc'' | hc''
                        · exact paramLocDiff_mem h1 c hc''
                        · exact paramLocDiff_mem h2 c hc''
                      · exact paramLocDiff_mem h3 c hc'

theorem schemaRemovedLoop_mem {path : J} {method : String} {newProps : J} :
    ∀ {iter : List J} {out : List Change},
    Differ.schemaRemovedLoop path method newProps iter = .ok out →
    ∀ c ∈ out, c.category = .schema ∧ c.method = some (pyUpper method) := by
  intro iter
  induction iter with
  | nil =>
      intro out h
      simp [Differ.schemaRemovedLoop] at h
      intro c hc
      rw [h] at hc
      cases hc
  | cons x rest ih =>
      intro out h
      unfold Differ.schemaRemovedLoop at h
      cases hc0 : pyContains x newProps with
      | error e => rw [hc0] at h; exact absurd h (by simp)
      | ok b =>
          rw [hc0] at h
          try dsimp only at h
          cases hrest : Differ.schemaRemovedLoop path method newProps rest with
          | error e => rw [hrest] at h; exact absurd h (by simp)
          | ok tail =>
              rw [hrest] at h
              have hx := Except.ok.inj h
              intro c hc
              rw [← hx] at hc
              cases b with
              | true =>
                  rw [if_pos rfl] at hc
                  exact ih hrest c hc
              | false =>
                  rw [if_neg (by simp)] at hc
                  rcases List.mem_cons.mp hc with rfl | hc'
                  · exact classify_schema_change_shape path method x "removed" (J.bool false)
                  · exact ih hrest c hc'

theorem schemaAddedLoop_mem {path : J} {method : String} {oldProps : J} {newReq : List J} :
    ∀ {iter : List J} {out : List Change},
    Differ.schemaAddedLoop path method oldProps newReq iter = .ok out →
    ∀ c ∈ out, c.category = .schema ∧ c.method = some (pyUpper method) := by
  intro iter
  induction iter with
  | nil =>
      intro out h
      simp [Differ.schemaAddedLoop] at h
      intro c hc
      rw [h] at hc
      cases hc
  | cons x rest ih =>
      intro out h
      unfold Differ.schemaAddedLoop at h
      cases hc0 : pyContains x oldProps with
      | error e => rw [hc0] at h; exact absurd h (by simp)
      | ok b =>
          rw [hc0] at h
          try dsimp only at h
          cases b with
          | true =>
              rw [show (if true then (.ok [] : Py (List Change))
                  else match pySetContains x newReq with
                       | .error e => .error e
                       | .ok r => .ok [Classifier.classify_schema_change path method x "added" (J.bool r)]) = .ok [] from rfl] at h
              try dsimp only at h
              cases hrest : Differ.schemaAddedLoop path method oldProps newReq rest with
              | error e => rw [hrest] at h; exact absurd h (by simp)
              | ok tail =>
                  rw [hrest] at h
                  have hx := Except.ok.inj h
                  intro c hc
                  rw [← hx] at hc
                  simp only [List.nil_append] at hc
                  exact ih hrest c hc
          | false =>
              try dsimp only at h
              cases hsc : pySetContains x newReq with
              | error e => rw [hsc] at h; exact absurd h (by simp)
              | ok r =>
                  rw [hsc] at h
                  try dsimp only at h
                  cases hrest : Differ.schemaAddedLoop path method oldProps newReq rest with
                  | error e => rw [hrest] at h; exact absurd h (by simp)
                  | ok tail =>
                      rw [hrest] at h
                      have hx := Except.ok.inj h
                      intro c hc
                      rw [← hx] at hc
                      rcases List.mem_append.mp hc with hc' | hc'
                      · rcases List.mem_singleton.mp hc' with rfl
                        exact classify_schema_change_shape path method x "added" (J.bool r)
                      · exact ih hrest c hc'

theorem schemaTypeLoop_mem {path : J} {method : String} {oldProps newProps : J} :
    ∀ {iter : List J} {out : List Change},
    Differ.schemaTypeLoop path method oldProps newProps iter = .ok out →
    ∀ c ∈ out, c.category = .schema ∧ c.method = some (pyUpper method) := by
  intro iter
  induction iter with
  | nil =>
      intro out h
      simp [Differ.schemaTypeLoop] at h
      intro c hc
      rw [h] at hc
      cases hc
  | cons x rest ih =>
      intro out h
      unfold Differ.schemaTypeLoop at h
      cases hc0 : pyContains x newProps with
      | error e => rw [hc0] at h; exact absurd h (by simp)
      | ok b =>
          rw [hc0] at h
          try dsimp only at h
          cases b with
          | false =>
              try dsimp only at h
              cases hrest : Differ.schemaTypeLoop path method oldProps newProps rest with
              | error e => rw [hrest] at h; exact absurd h (by simp)
              | ok tail =>
                  rw [hrest] at h
                  have hx := Except.ok.inj h
                  intro c hc
                  rw [← hx] at hc
                  simp only [List.nil_append] at hc
                  exact ih hrest c hc
          | true =>
              try dsimp only at h
              cases hix : pyIndex oldProps x with
              | error e => rw [hix] at h; exact absurd h (by simp)
              | ok oldProp =>
                  rw [hix] at h
                  try dsimp only at h
                  cases hgt : pyGetD oldProp "type" (J.str "") with
                  | error e => rw [hgt] at h; exact absurd h (by simp)
                  | ok ot =>
                      rw [hgt] at h
                      try dsimp only at h
                      cases hix2 : pyIndex newProps x with
                      | error e => rw [hix2] at h; exact absurd h (by simp)
                      | ok newProp =>
                          rw [hix2] at h
                          try dsimp only at h
                          cases hgt2 : pyGetD newProp "type" (J.str "") with
                          | error e => rw [hgt2] at h; exact absurd h (by simp)
                          | ok nt =>
                              rw [hgt2] at h
                              try dsimp only at h
                              cases hrest : Differ.schemaTypeLoop path method oldProps newProps rest with
                              | error e => rw [hrest] at h; exact absurd h (by simp)
                              | ok tail =>
                                  rw [hrest] at h
                                  have hx := Except.ok.inj h
                                  intro c hc
                                  rw [← hx] at hc
                                  rcases List.mem_append.mp hc with hc' | hc'
                                  · by_cases hcond : (pyStr ot != pyStr nt &&
                                        pyStr ot != "" && pyStr nt != "") = true
                                    · simp only [hcond, if_true] at hc'
                                      rcases List.mem_singleton.mp hc' with rfl
                                      exact classify_schema_change_shape path method x
                                        "type_changed" (J.bool false)
                                    · simp only [hcond, if_false] at hc'
                                      cases hc'
                                  · exact ih hrest c hc'

theorem diff_schema_mem {path : J} {method : String} {os ns : J} {loc : String}
    {out : List Change} (h : Differ.diff_schema path method os ns loc = .ok out) :
    ∀ c ∈ out, c.category = .schema ∧ c.method = some (pyUpper method) := by
  unfold Differ.diff_schema at h
  cases h1 : pyGetD os "properties" (J.obj .nil) with
  | error e => rw [h1] at h; exact absurd h (by simp)
  | ok oldProps =>
      rw [h1] at h
      try dsimp only at h
      cases h2 : pyGetD ns "properties" (J.obj .nil) with
      | error e => rw [h2] at h; exact absurd h (by simp)
      | ok newProps =>
          rw [h2] at h
          try dsimp only at h
          cases h3 : pyGetD os "required" (J.arr .nil) with
          | error e => rw [h3] at h; exact absurd h (by simp)
          | ok oreq =>
              rw [h3] at h
              try dsimp only at h
              cases h4 : pySetOf oreq with
              | error e => rw [h4] at h; exact absurd h (by simp)
              | ok oldReq =>
                  rw [h4] at h
                  try dsimp only at h
                  cases h5 : pyGetD ns "required" (J.arr .nil) with
                  | error e => rw [h5] at h; exact absurd h (by simp)
                  | ok nreq =>
                      rw [h5] at h
                      try dsimp only at h
                      cases h6 : pySetOf nreq with
                      | error e => rw [h6] at h; exact absurd h (by simp)
                      | ok newReq =>
                          rw [h6] at h
                          try dsimp only at h
                          cases h7 : pyElems oldProps with
                          | error e => rw [h7] at h; exact absurd h (by simp)
                          | ok oldNames =>
                              rw [h7] at h
                              try dsimp only at h
                              cases h8 : Differ.schemaRemovedLoop path method newProps oldNames with
                              | error e => rw [h8] at h; exact absurd h (by simp)
                              | ok removed =>
                                  rw [h8] at h
                                  try dsimp only at h
                                  cases h9 : pyElems newProps with
                                  | error e => rw [h9] at h; exact absurd h (by simp)
                                  | ok newNames =>
                                      rw [h9] at h
                                      try dsimp only at h
                                      cases h10 : Differ.schemaAddedLoop path method oldProps newReq newNames with
                                      | error e => rw [h10] at h; exact absurd h (by simp)
                                      | ok added =>
                                          rw [h10] at h
                                          try dsimp only at h
                                          cases h11 : Differ.schemaTypeLoop path method oldProps newProps oldNames with
                                          | error e => rw [h11] at h; exact absurd h (by simp)
                                          | ok changed =>
                                              rw [h11] at h
                                              have hx := Except.ok.inj h
                                              intro c hc
                                              rw [← hx] at hc
                                              rcases List.mem_append.mp hc with hc' | hc'
                                              · rcases List.mem_append.mp hc' with hc'' | hc''
                                                · exact schemaRemovedLoop_mem h8 c hc''
                                                · exact schemaAddedLoop_mem h10 c hc''
                                              · exact schemaTypeLoop_mem h11 c hc'

theorem diff_request_body_mem {path : J} {method : String} {old_op new_op : List (String × J)}
    {out : List Change} (h : Differ.diff_request_body path method old_op new_op = .ok out) :
    ∀ c ∈ out, c.category = .schema ∧ c.method = some (pyUpper method) := by
  unfold Differ.diff_request_body at h
  by_cases hg : (! truthy (objGetD old_op "requestBody" (J.obj .nil)) &&
      ! truthy (objGetD new_op "requestBody" (J.obj .nil))) = true
  · rw [if_pos hg] at h
    have hx := Except.ok.inj h
    intro c hc
    rw [← hx] at hc
    cases hc
  · rw [if_neg hg] at h
    cases h1 : Differ.extract_schema_from_request_body (objGetD old_op "requestBody" (J.obj .nil)) with
    | error e => rw [h1] at h; exact absurd h (by simp)
    | ok os =>
        rw [h1] at h
        try dsimp only at h
        cases h2 : Differ.extract_schema_from_request_body (objGetD new_op "requestBody" (J.obj .nil)) with
        | error e => rw [h2] at h; exact absurd h (by simp)
        | ok ns =>
            rw [h2] at h
            try dsimp only at h
            by_cases hg2 : (! truthy os || ! truthy ns) = true
            · rw [if_pos hg2] at h
              have hx := Except.ok.inj h
              intro c hc
              rw [← hx] at hc
              cases hc
            · rw [if_neg hg2] at h
              exact diff_schema_mem h

theorem diff_responses_mem {path : J} {method : String} {old_op new_op : List (String × J)}
    {out : List Change} (h : Differ.diff_responses path method old_op new_op = .ok out) :
    ∀ c ∈ out, c.category = .response ∧ c.method = some (pyUpper method) := by
  unfold Differ.diff_responses at h
  cases h1 : Normalizer.extract_responses old_op with
  | error e => rw [h1] at h; exact absurd h (by simp)
  | ok oldR =>
      rw [h1] at h
      try dsimp only at h
      cases h2 : Normalizer.extract_responses new_op with
      | error e => rw [h2] at h; exact absurd h (by simp)
      | ok newR =>
          rw [h2] at h
          have hx := Except.ok.inj h
          intro c hc
          rw [← hx] at hc
          rcases List.mem_append.mp hc with hc' | hc'
          · rcases List.mem_map.mp hc' with ⟨kv, _, rfl⟩
            exact classify_response_change_shape path method kv.1 "removed"
          · rcases List.mem_map.mp hc' with ⟨kv, _, rfl⟩
            exact classify_response_change_shape path method kv.1 "added"

theorem diff_operation_mem {path : J} {method : String} {old_op new_op : List (String × J)}
    {out : List Change} (h : Differ.diff_operation path method old_op new_op = .ok out) :
    ∀ c ∈ out, OpLevelAt method c := by
  unfold Differ.diff_operation at h
  dsimp only at h
  cases h1 : Differ.diff_parameters path method old_op new_op
      (dictHasKey old_op "parameters" || dictHasKey old_op "requestBody") with
  | error e => rw [h1] at h; exact absurd h (by simp)
  | ok ps =>
      rw [h1] at h
      try dsimp only at h
      by_cases hflag : (dictHasKey old_op "parameters" || dictHasKey old_op "requestBody") = true
      · rw [hflag] at h
        try dsimp only at h
        cases h2 : Differ.diff_request_body path method old_op new_op with
        | error e => rw [h2] at h; exact absurd h (by simp)
        | ok bs =>
            rw [h2] at h
            try dsimp only at h
            cases h3 : Differ.diff_responses path method old_op new_op with
            | error e => rw [h3] at h; exact absurd h (by simp)
            | ok rs =>
                rw [h3] at h
                have hx := Except.ok.inj h
                intro c hc
                rw [← hx] at hc
                rcases List.mem_append.mp hc with hc' | hc'
                · rcases List.mem_append.mp hc' with hc'' | hc''
                  · have := diff_parameters_mem h1 c hc''
                    exact ⟨Or.inl this.1, this.2⟩
                  · have := diff_request_body_mem h2 c hc''
                    exact ⟨Or.inr (Or.inl this.1), this.2⟩
                · have := diff_responses_mem h3 c hc'
                  exact ⟨Or.inr (Or.inr this.1), this.2⟩
      · rw [show (dictHasKey old_op "parameters" || dictHasKey old_op "requestBody") = false from by
            simpa using hflag] at h
        try dsimp only at h
        cases h3 : Differ.diff_responses path method old_op new_op with
        | error e => rw [h3] at h; exact absurd h (by simp)
        | ok rs =>
            rw [h3] at h
            have hx := Except.ok.inj h
            intro c hc
            rw [← hx] at hc
            rcases List.mem_append.mp hc with hc' | hc'
            · rcases List.mem_append.mp hc' with hc'' | hc''
              · have := diff_parameters_mem h1 c hc''
                exact ⟨Or.inl this.1, this.2⟩
              · cases hc''
            · have := diff_responses_mem h3 c hc'
              exact ⟨Or.inr (Or.inr this.1), this.2⟩

theorem opMethodsGo_all : ∀ {its : List (String × J)} {acc : List (String × List (String × J))},
    (∀ kv ∈ acc, METHODS.contains (pyLower kv.1) = true) →
    ∀ kv ∈ Differ.opMethodsGo acc its, METHODS.contains (pyLower kv.1) = true := by
  intro its
  induction its with
  | nil =>
      intro acc hacc kv hkv
      exact hacc kv (by simpa [Differ.opMethodsGo] using hkv)
  | cons hd rest ih =>
      intro acc hacc kv hkv
      obtain ⟨k, v⟩ := hd
      cases v with
      | null => exact ih hacc kv (by simpa [Differ.opMethodsGo] using hkv)
      | bool b => exact ih hacc kv (by simpa [Differ.opMethodsGo] using hkv)
      | num n => exact ih hacc kv (by simpa [Differ.opMethodsGo] using hkv)
      | str s => exact ih hacc kv (by simpa [Differ.opMethodsGo] using hkv)
      | arr xs => exact ih hacc kv (by simpa [Differ.opMethodsGo] using hkv)
      | obj kvs =>
          revert hkv
          simp only [Differ.opMethodsGo]
          by_cases hm : METHODS.contains (pyLower k) = true
          · rw [hm, if_pos rfl]
            intro hkv
            refine ih ?_ kv hkv
            intro kv' hkv'
            rcases dictSet_mem hkv' with h' | h'
            · rw [h']
              exact hm
            · exact hacc kv' h'
          · rw [show METHODS.contains (pyLower k) = false from by simpa using hm,
                if_neg (by simp)]
            intro hkv
            exact ih hacc kv hkv

theorem opMethods_all {its : List (String × J)} :
    ∀ kv ∈ Differ.opMethods its, METHODS.contains (pyLower kv.1) = true :=
  opMethodsGo_all fun kv h => absurd h (List.not_mem_nil kv)

theorem opPairLoop_mem {path : J} {M : List (String × List (String × J))} :
    ∀ {iter : List (String × List (String × J))} {out : List Change},
    (∀ kv ∈ iter, METHODS.contains (pyLower kv.1) = true) →
    Differ.opPairLoop path M iter = .ok out → ∀ c ∈ out, OpLevelChange c := by
  intro iter
  induction iter with
  | nil =>
      intro out _ h
      simp [Differ.opPairLoop] at h
      intro c hc
      rw [h] at hc
      cases hc
  | cons kv rest ih =>
      intro out hmeth h
      obtain ⟨m, op⟩ := kv
      unfold Differ.opPairLoop at h
      cases hlk : dictLookup M m with
      | none =>
          rw [show dictLookup M (m, op).1 = none from hlk] at h
          try dsimp only at h
          exact ih (fun y hy => hmeth y (List.mem_cons_of_mem _ hy)) h
      | some new_op =>
          rw [show dictLookup M (m, op).1 = some new_op from hlk] at h
          try dsimp only at h
          cases hdo : Differ.diff_operation path m op new_op with
          | error e => rw [hdo] at h; exact absurd h (by simp)
          | ok cs =>
              rw [hdo] at h
              try dsimp only at h
              cases hrest : Differ.opPairLoop path M rest with
              | error e => rw [hrest] at h; exact absurd h (by simp)
              | ok tail =>
                  rw [hrest] at h
                  have hx := Except.ok.inj h
                  intro c hc
                  rw [← hx] at hc
                  rcases List.mem_append.mp hc with hc' | hc'
                  · have hop := diff_operation_mem hdo c hc'
                    exact ⟨hop.1, m, hmeth (m, op) (List.mem_cons_self _ _), hop.2⟩
                  · exact ih (fun y hy => hmeth y (List.mem_cons_of_mem _ hy)) hrest c hc'

theorem opsLoop_chunks {p q : J} : ∀ {iter : List J} {out : List Change},
    Differ.opsLoop p q iter = .ok out →
    ∃ chunks : List (List Change), out = chunks.flatten ∧ ∀ ch ∈ chunks, ChunkShape ch := by
  intro iter
  induction iter with
  | nil =>
      intro out h
      simp [Differ.opsLoop] at h
      refine ⟨[], by simp [h], ?_⟩
      intro ch hch
      cases hch
  | cons x rest ih =>
      intro out h
      unfold Differ.opsLoop at h
      cases hc : pyContains x q with
      | error e => rw [hc] at h; exact absurd h (by simp)
      | ok b =>
          rw [hc] at h
          try dsimp only at h
          cases b with
          | false =>
              rw [if_neg (by simp)] at h
              exact ih h
          | true =>
              rw [if_pos rfl] at h
              cases hix1 : pyIndex p x with
              | error e => rw [hix1] at h; exact absurd h (by simp)
              | ok oldItem =>
                  rw [hix1] at h
                  try dsimp only at h
                  cases hix2 : pyIndex q x with
                  | error e => rw [hix2] at h; exact absurd h (by simp)
                  | ok newItem =>
                      rw [hix2] at h
                      try dsimp only at h
                      cases hits1 : pyItems oldItem with
                      | error e => rw [hits1] at h; exact absurd h (by simp)
                      | ok oldIts =>
                          rw [hits1] at h
                          try dsimp only at h
                          cases hits2 : pyItems newItem with
                          | error e => rw [hits2] at h; exact absurd h (by simp)
                          | ok newIts =>
                              rw [hits2] at h
                              try dsimp only at h
                              cases hpair : Differ.opPairLoop x (Differ.opMethods newIts)
                                  (Differ.opMethods oldIts) with
                              | error e => rw [hpair] at h; exact absurd h (by simp)
                              | ok ops =>
                                  rw [hpair] at h
                                  try dsimp only at h
                                  cases hrest : Differ.opsLoop p q rest with
                                  | error e => rw [hrest] at h; exact absurd h (by simp)
                                  | ok tail =>
                                      rw [hrest] at h
                                      have hx := Except.ok.inj h
                                      rcases ih hrest with ⟨chunks, htail, hsh⟩
                                      refine ⟨((((Differ.opMethods oldIts).filter fun kv =>
                                          ! dictHasKey (Differ.opMethods newIts) kv.1).map fun kv =>
                                          Classifier.classify_method_removal x kv.1)
                                        ++ (((Differ.opMethods newIts).filter fun kv =>
                                          ! dictHasKey (Differ.opMethods oldIts) kv.1).map fun kv =>
                                          Classifier.classify_method_addition x kv.1)
                                        ++ ops) :: chunks, ?_, ?_⟩
                                      · rw [← hx, htail]
                                        simp
                                      · intro ch hch
                                        rcases List.mem_cons.mp hch with rfl | hch'
                                        · refine ⟨_, _, ops, rfl, ?_, ?_, ?_⟩
                                          · intro c hcm
                                            rcases List.mem_map.mp hcm with ⟨kv, hkv, rfl⟩
                                            have hm := opMethods_all kv (List.mem_of_mem_filter hkv)
                                            exact ⟨rfl, rfl, rfl, kv.1, hm, rfl⟩
                                          · intro c hcm
                                            rcases List.mem_map.mp hcm with ⟨kv, hkv, rfl⟩
                                            have hm := opMethods_all kv (List.mem_of_mem_filter hkv)
                                            exact ⟨rfl, rfl, rfl, kv.1, hm, rfl⟩
                                          · intro c hcm
                                            exact opPairLoop_mem (fun kv hkv => opMethods_all kv hkv)
                                              hpair c hcm
                                        · exact hsh ch hch'

theorem diff_operations_chunks {p q : J} {out : List Change}
    (h : Differ.diff_operations p q = .ok out) :
    ∃ chunks : List (List Change), out = chunks.flatten ∧ ∀ ch ∈ chunks, ChunkShape ch := by
  unfold Differ.diff_operations at h
  cases hels : pyElems p with
  | error e => rw [hels] at h; exact absurd h (by simp)
  | ok es =>
      rw [hels] at h
      try dsimp only at h
      exact opsLoop_chunks h

theorem opPairLoop_segments {path : J} {M : List (String × List (String × J))} :
    ∀ {iter : List (String × List (String × J))} {out : List Change},
    Differ.opPairLoop path M iter = .ok out →
    ∃ parts : List (List Change), out = List.flatten parts ∧
      List.Forall₂ (fun (kv : String × List (String × J)) (part : List Change) =>
          ∃ new_op, dictLookup M kv.1 = some new_op ∧
            Differ.diff_operation path kv.1 kv.2 new_op = .ok part ∧
            ∀ c ∈ part, OpLevelAt kv.1 c)
        (iter.filter fun kv => dictHasKey M kv.1) parts := by
  intro iter
  induction iter with
  | nil =>
      intro out h
      simp [Differ.opPairLoop] at h
      exact ⟨[], by simp [h], List.Forall₂.nil⟩
  | cons kv rest ih =>
      intro out h
      obtain ⟨m, op⟩ := kv
      unfold Differ.opPairLoop at h
      cases hlk : dictLookup M m with
      | none =>
          rw [show dictLookup M (m, op).1 = none from hlk] at h
          try dsimp only at h
          rcases ih h with ⟨parts, hflat, hfa⟩
          refine ⟨parts, hflat, ?_⟩
          rw [show ((m, op) :: rest).filter (fun kv => dictHasKey M kv.1)
              = rest.filter (fun kv => dictHasKey M kv.1) from by
                simp [List.filter_cons, dictHasKey, hlk]]
          exact hfa
      | some new_op =>
          rw [show dictLookup M (m, op).1 = some new_op from hlk] at h
          try dsimp only at h
          cases hdo : Differ.diff_operation path m op new_op with
          | error e => rw [hdo] at h; exact absurd h (by simp)
          | ok cs =>
              rw [hdo] at h
              try dsimp only at h
              cases hrest : Differ.opPairLoop path M rest with
              | error e => rw [hrest] at h; exact absurd h (by simp)
              | ok tail =>
                  rw [hrest] at h
                  have hx := Except.ok.inj h
                  rcases ih hrest with ⟨parts, hflat, hfa⟩
                  refine ⟨cs :: parts, ?_, ?_⟩
                  · rw [← hx, hflat]
                    simp
                  · rw [show ((m, op) :: rest).filter (fun kv => dictHasKey M kv.1)
                        = (m, op) :: rest.filter (fun kv => dictHasKey M kv.1) from by
                          simp [List.filter_cons, dictHasKey, hlk]]
                    exact List.Forall₂.cons
                      ⟨new_op, hlk, hdo, fun c hc => diff_operation_mem hdo c hc⟩ hfa

theorem opsLoop_segments {p q : J} : ∀ {iter : List J} {out : List Change},
    Differ.opsLoop p q iter = .ok out →
    ∃ segs : List (List Change), out = List.flatten segs ∧
      List.Forall₂ (PathSegment p q) (iter.filter fun x => inB x q) segs := by
  intro iter
  induction iter with
  | nil =>
      intro out h
      simp [Differ.opsLoop] at h
      exact ⟨[], by simp [h], List.Forall₂.nil⟩
  | cons x rest ih =>
      intro out h
      unfold Differ.opsLoop at h
      cases hc : pyContains x q with
      | error e => rw [hc] at h; exact absurd h (by simp)
      | ok b =>
          rw [hc] at h
          try dsimp only at h
          have hinB : inB x q = b := by simp [inB, hc]
          cases b with
          | false =>
              rw [if_neg (by simp)] at h
              rcases ih h with ⟨segs, hflat, hfa⟩
              refine ⟨segs, hflat, ?_⟩
              rw [show (x :: rest).filter (fun y => inB y q)
                  = rest.filter (fun y => inB y q) from by
                    simp [List.filter_cons, hinB]]
              exact hfa
          | true =>
              rw [if_pos rfl] at h
              cases hix1 : pyIndex p x with
              | error e => rw [hix1] at h; exact absurd h (by simp)
              | ok oldItem =>
                  rw [hix1] at h
                  try dsimp only at h
                  cases hix2 : pyIndex q x with
                  | error e => rw [hix2] at h; exact absurd h (by simp)
                  | ok newItem =>
                      rw [hix2] at h
                      try dsimp only at h
                      cases hits1 : pyItems oldItem with
                      | error e => rw [hits1] at h; exact absurd h (by simp)
                      | ok oldIts =>
                          rw [hits1] at h
                          try dsimp only at h
                          cases hits2 : pyItems newItem with
                          | error e => rw [hits2] at h; exact absurd h (by simp)
                          | ok newIts =>
                              rw [hits2] at h
                              try dsimp only at h
                              cases hpair : Differ.opPairLoop x (Differ.opMethods newIts)
                                  (Differ.opMethods oldIts) with
                              | error e => rw [hpair] at h; exact absurd h (by simp)
                              | ok ops =>
                                  rw [hpair] at h
                                  try dsimp only at h
                                  cases hrest : Differ.opsLoop p q rest with
                                  | error e => rw [hrest] at h; exact absurd h (by simp)
                                  | ok tail =>
                                      rw [hrest] at h
                                      have hx := Except.ok.inj h
                                      rcases ih hrest with ⟨segs, hflat, hfa⟩
                                      rcases opPairLoop_segments hpair with
                                        ⟨parts, hops, hfa2⟩
                                      refine ⟨((((Differ.opMethods oldIts).filter fun kv =>
                                          ! dictHasKey (Differ.opMethods newIts) kv.1).map fun kv =>
                                          Classifier.classify_method_removal x kv.1)
                                        ++ (((Differ.opMethods newIts).filter fun kv =>
                                          ! dictHasKey (Differ.opMethods oldIts) kv.1).map fun kv =>
                                          Classifier.classify_method_addition x kv.1)
                                        ++ ops) :: segs, ?_, ?_⟩
                                      · rw [← hx, hflat]
                                        simp
                                      · rw [show (x :: rest).filter (fun y => inB y q)
                                            = x :: rest.filter (fun y => inB y q) from by
                                              simp [List.filter_cons, hinB]]
                                        refine List.Forall₂.cons ?_ hfa
                                        exact ⟨oldItem, newItem, oldIts, newIts, hix1, hix2,
                                          hits1, hits2, parts, by rw [hops], hfa2⟩

theorem diff_operations_decomp {p q : J} {out : List Change}
    (h : Differ.diff_operations p q = .ok out) :
    ∃ olds, pyElems p = .ok olds ∧ Differ.opsLoop p q olds = .ok out := by
  unfold Differ.diff_operations at h
  cases hels : pyElems p with
  | error e => rw [hels] at h; exact absurd h (by simp)
  | ok olds =>
      rw [hels] at h
      try dsimp only at h
      exact ⟨olds, rfl, h⟩

theorem diff_decomp {o n : List (String × J)} {l : List Change}
    (h : Differ.diff o n = .ok l) :
    ∃ na nb es os, Normalizer.normalize o = .ok na ∧ Normalizer.normalize n = .ok nb ∧
      Differ.diff_endpoints (objGetD na "paths" (J.obj .nil))
        (objGetD nb "paths" (J.obj .nil)) = .ok es ∧
      Differ.diff_operations (objGetD na "paths" (J.obj .nil))
        (objGetD nb "paths" (J.obj .nil)) = .ok os ∧
      l = es ++ os := by
  unfold Differ.diff at h
  cases h1 : Normalizer.normalize o with
  | error e => rw [h1] at h; exact absurd h (by simp)
  | ok na =>
      rw [h1] at h
      try dsimp only at h
      cases h2 : Normalizer.normalize n with
      | error e => rw [h2] at h; exact absurd h (by simp)
      | ok nb =>
          rw [h2] at h
          try dsimp only at h
          cases h3 : Differ.diff_endpoints (objGetD na "paths" (J.obj .nil))
              (objGetD nb "paths" (J.obj .nil)) with
          | error e => rw [h3] at h; exact absurd h (by simp)
          | ok es =>
              rw [h3] at h
              try dsimp only at h
              cases h4 : Differ.diff_operations (objGetD na "paths" (J.obj .nil))
                  (objGetD nb "paths" (J.obj .nil)) with
              | error e => rw [h4] at h; exact absurd h (by simp)
              | ok os =>
                  rw [h4] at h
                  have hx := Except.ok.inj h
                  exact ⟨na, nb, es, os, rfl, rfl, h3, h4, hx.symm⟩

theorem compare_decomp {A B : J} {r : DiffResult}
    (h : DiffService.compare_decoded A B = .ok r) :
    ∃ a b l, Parser.validate_decoded A = .ok a ∧ Parser.validate_decoded B = .ok b ∧
      Differ.diff a b = .ok l ∧ r = DiffService.build_result l := by
  unfold DiffService.compare_decoded at h
  cases h1 : Parser.validate_decoded A with
  | error e => rw [h1] at h; exact absurd h (by simp)
  | ok a =>
      rw [h1] at h
      try dsimp only at h
      cases h2 : Parser.validate_decoded B with
      | error e => rw [h2] at h; exact absurd h (by simp)
      | ok b =>
          rw [h2] at h
          try dsimp only at h
          cases h3 : Differ.diff a b with
          | error e => rw [h3] at h; exact absurd h (by simp)
          | ok l =>
              rw [h3] at h
              have hx := Except.ok.inj h
              exact ⟨a, b, l, rfl, rfl, h3, hx.symm⟩

theorem diff_endpoints_phase {p q : J} {es : List Change}
    (h : Differ.diff_endpoints p q = .ok es) : EndpointPhase es := by
  rcases diff_endpoints_eq h with ⟨olds, news, _, _, heq⟩
  refine ⟨_, _, heq, ?_, ?_⟩
  · intro c hc
    rcases List.mem_map.mp hc with ⟨x, _, rfl⟩
    exact ⟨rfl, rfl, rfl, rfl⟩
  · intro c hc
    rcases List.mem_map.mp hc with ⟨x, _, rfl⟩
    exact ⟨rfl, rfl, rfl, rfl⟩

theorem endpointPaths_append (a b : List Change) :
    removedEndpointPaths (a ++ b) = removedEndpointPaths a ++ removedEndpointPaths b ∧
    addedEndpointPaths (a ++ b) = addedEndpointPaths a ++ addedEndpointPaths b := by
  constructor <;> simp [removedEndpointPaths, addedEndpointPaths, List.filter_append]

theorem removedPaths_map_removal (xs : List J) :
    removedEndpointPaths (xs.map Classifier.classify_endpoint_removal) = xs := by
  induction xs with
  | nil => rfl
  | cons x rest ih =>
      unfold removedEndpointPaths at ih ⊢
      simp only [List.map_cons, List.filter_cons]
      rw [if_pos (show ((Classifier.classify_endpoint_removal x).category == Category.endpoint &&
        (Classifier.classify_endpoint_removal x).type == Severity.breaking) = true from rfl)]
      simp only [List.map_cons]
      rw [ih]
      rfl

theorem removedPaths_map_addition (xs : List J) :
    removedEndpointPaths (xs.map Classifier.classify_endpoint_addition) = [] := by
  induction xs with
  | nil => rfl
  | cons x rest ih =>
      unfold removedEndpointPaths at ih ⊢
      simp only [List.map_cons, List.filter_cons]
      rw [if_neg (show ¬ ((Classifier.classify_endpoint_addition x).category == Category.endpoint &&
        (Classifier.classify_endpoint_addition x).type == Severity.breaking) = true from by
          simp [Classifier.classify_endpoint_addition])]
      exact ih

theorem addedPaths_map_removal (xs : List J) :
    addedEndpointPaths (xs.map Classifier.classify_endpoint_removal) = [] := by
  induction xs with
  | nil => rfl
  | cons x rest ih =>
      unfold addedEndpointPaths at ih ⊢
      simp only [List.map_cons, List.filter_cons]
      rw [if_neg (show ¬ ((Classifier.classify_endpoint_removal x).category == Category.endpoint &&
        (Classifier.classify_endpoint_removal x).type == Severity.non_breaking) = true from by
          simp [Classifier.classify_endpoint_removal])]
      exact ih

theorem addedPaths_map_addition (xs : List J) :
    addedEndpointPaths (xs.map Classifier.classify_endpoint_addition) = xs := by
  induction xs with
  | nil => rfl
  | cons x rest ih =>
      unfold addedEndpointPaths at ih ⊢
      simp only [List.map_cons, List.filter_cons]
      rw [if_pos (show ((Classifier.classify_endpoint_addition x).category == Category.endpoint &&
        (Classifier.classify_endpoint_addition x).type == Severity.non_breaking) = true from rfl)]
      simp only [List.map_cons]
      rw [ih]
      rfl

theorem endpointPaths_of_endpoint_pass (olds news : List J) (q p : J) :
    removedEndpointPaths
      ((olds.filter fun x => notInB x q).map Classifier.classify_endpoint_removal
        ++ (news.filter fun x => notInB x p).map Classifier.classify_endpoint_addition)
      = olds.filter (fun x => notInB x q) ∧
    addedEndpointPaths
      ((olds.filter fun x => notInB x q).map Classifier.classify_endpoint_removal
        ++ (news.filter fun x => notInB x p).map Classifier.classify_endpoint_addition)
      = news.filter (fun x => notInB x p) := by
  constructor
  · rw [(endpointPaths_append _ _).1, removedPaths_map_removal, removedPaths_map_addition,
      List.append_nil]
  · rw [(endpointPaths_append _ _).2, addedPaths_map_removal, addedPaths_map_addition,
      List.nil_append]

theorem endpointPaths_nil_of_no_endpoint (os : List Change)
    (h : ∀ c ∈ os, c.category ≠ .endpoint) :
    removedEndpointPaths os = [] ∧ addedEndpointPaths os = [] := by
  constructor <;>
    · refine List.map_eq_nil_iff.mpr (List.filter_eq_nil_iff.mpr ?_)
      intro c hc
      simp
      intro hcat
      exact absurd hcat (h c hc)

theorem chunks_no_endpoint {chunks : List (List Change)}
    (h : ∀ ch ∈ chunks, ChunkShape ch) :
    ∀ c ∈ chunks.flatten, c.category ≠ .endpoint := by
  intro c hc
  rcases List.mem_flatten.mp hc with ⟨ch, hch, hcch⟩
  rcases h ch hch with ⟨mr, ma, ops, rfl, hmr, hma, hops⟩
  rcases List.mem_append.mp hcch with hc' | hc'
  · rcases List.mem_append.mp hc' with hc'' | hc''
    · rw [(hmr c hc'').1]
      simp
    · rw [(hma c hc'').1]
      simp
  · rcases (hops c hc').1 with hcat | hcat | hcat <;> rw [hcat] <;> simp

theorem dictLookup_dictSet {α : Type} : ∀ (l : List (String × α)) (k : String) (v : α)
    (m : String), dictLookup (dictSet l k v) m = if k == m then some v else dictLookup l m := by
  intro l
  induction l with
  | nil =>
      intro k v m
      by_cases hk : (k == m) = true <;> simp [dictSet, dictLookup, hk]
  | cons hd tl ih =>
      intro k v m
      obtain ⟨k', v'⟩ := hd
      by_cases hk : (k' == k) = true
      · have hk' : k' = k := eq_of_beq hk
        subst hk'
        rw [show dictSet ((k', v') :: tl) k' v = (k', v) :: tl from by simp [dictSet]]
        by_cases hm : (k' == m) = true <;> simp [dictLookup, hm]
      · rw [show dictSet ((k', v') :: tl) k v = (k', v') :: dictSet tl k v from by
            simp [dictSet, hk]]
        by_cases hm : (k' == m) = true
        · have hm' : k' = m := eq_of_beq hm
          subst hm'
          have hkm : (k == k') = false := by
            rcases hkk : k == k' with _ | _
            · rfl
            · exact absurd (beq_iff_eq.mpr (eq_of_beq hkk).symm) (by simp [hk])
          simp [dictLookup, hm, hkm]
        · simp [dictLookup, hm, ih]

theorem normItemGo_lookup : ∀ (entries : List (String × J)) (acc : List (String × J))
    (m : String),
    dictLookup (Normalizer.normalizePathItemGo acc entries) m =
      match lastValueForMethod entries m with
      | some w => some w
      | none => dictLookup acc m := by
  intro entries
  induction entries with
  | nil => intro acc m; rfl
  | cons kv rest ih =>
      intro acc m
      obtain ⟨k, v⟩ := kv
      simp only [Normalizer.normalizePathItemGo, lastValueForMethod]
      by_cases hm : METHODS.contains (pyLower k) = true
      · rw [hm, if_pos rfl, ih]
        cases hl : lastValueForMethod rest m with
        | some w => rfl
        | none =>
            rw [dictLookup_dictSet]
            by_cases hk : (pyLower k == m) = true
            · have hkm : pyLower k = m := eq_of_beq hk
              rw [hk, show METHODS.contains m = true from hkm ▸ hm]
              simp
            · rw [show (pyLower k == m) = false from by simpa using hk]
              simp
      · rw [show METHODS.contains (pyLower k) = false from by simpa using hm,
            if_neg (by simp), ih]
        cases hl : lastValueForMethod rest m with
        | some w => rfl
        | none =>
            by_cases hk : (pyLower k == m) = true
            · have hkm : pyLower k = m := eq_of_beq hk
              rw [hk, show METHODS.contains m = false from hkm ▸ (by simpa using hm)]
              simp
            · rw [show (pyLower k == m) = false from by simpa using hk]
              simp

theorem buildSummary_sum : ∀ l : List Change,
    (DiffService.buildSummary l).breaking + (DiffService.buildSummary l).potentially_breaking
      + (DiffService.buildSummary l).non_breaking = l.length := by
  intro l
  induction l with
  | nil => rfl
  | cons c rest ih =>
      cases hc : c.type <;> simp [DiffService.buildSummary, hc] <;> omega

/-- C1: for every pair of decoded inputs on which the comparison succeeds, the
returned summary partitions the change list, so the breaking,
potentially-breaking and non-breaking counters add up to the number of
changes. -/
theorem C1_partition_invariant : ∀ (old_doc new_doc : J) (r : DiffResult),
    DiffService.compare_decoded old_doc new_doc = .ok r →
    r.summary.breaking + r.summary.potentially_breaking + r.summary.non_breaking
      = r.changes.length := by
  intro o n r h
  rcases compare_decomp h with ⟨a, b, l, _, _, _, rfl⟩
  exact buildSummary_sum l

/-- Witness for C1 at a concrete comparison (one method added). -/
theorem C1_partition_invariant_witness :
    DiffService.compare_decoded c1OldDoc c1NewDoc
      = .ok (resultOf (DiffService.compare_decoded c1OldDoc c1NewDoc)) ∧
    (resultOf (DiffService.compare_decoded c1OldDoc c1NewDoc)).summary.breaking
      + (resultOf (DiffService.compare_decoded c1OldDoc c1NewDoc)).summary.potentially_breaking
      + (resultOf (DiffService.compare_decoded c1OldDoc c1NewDoc)).summary.non_breaking
      = (resultOf (DiffService.compare_decoded c1OldDoc c1NewDoc)).changes.length :=
  ⟨rfl, C1_partition_invariant c1OldDoc c1NewDoc _ rfl⟩

/-- C2 counterexample: c2BadDoc is accepted by the Parser (its top-level keys
are all truthy) but comparing it with itself raises inside normalization (the
path item is a list, and .items() on a list raises), so compare(S, S) fails
with the generic unexpected error instead of yielding zero changes. -/
theorem C2_counterexample :
    isOkE (Parser.validate_decoded c2BadDoc) = true ∧
    DiffService.compare_decoded c2BadDoc c2BadDoc = .error .unexpected :=
  ⟨rfl, rfl⟩

/-- C2 (amended): for every decoded document S on which the self-comparison
succeeds, compare(S, S) yields an empty change list and an all-zero summary. -/
theorem C2_self_diff_amended : ∀ (S : J) (r : DiffResult),
    DiffService.compare_decoded S S = .ok r →
    r.changes = [] ∧ r.summary = ⟨0, 0, 0⟩ := by
  intro S r h
  rcases compare_decomp h with ⟨a, b, l, h1, h2, h3, rfl⟩
  have hab : a = b := Except.ok.inj (h1.symm.trans h2)
  subst hab
  have hl := diff_self h3
  subst hl
  exact ⟨rfl, rfl⟩

/-- Witness for the amended C2 at a concrete well-shaped document. -/
theorem C2_self_diff_amended_witness :
    DiffService.compare_decoded c2GoodDoc c2GoodDoc
      = .ok (resultOf (DiffService.compare_decoded c2GoodDoc c2GoodDoc)) ∧
    ((resultOf (DiffService.compare_decoded c2GoodDoc c2GoodDoc)).changes = [] ∧
     (resultOf (DiffService.compare_decoded c2GoodDoc c2GoodDoc)).summary = ⟨0, 0, 0⟩) :=
  ⟨rfl, C2_self_diff_amended c2GoodDoc _ rfl⟩

/-- C3 counterexample: on a successful diff with two common paths the output
interleaves method- and operation-level changes per path (method, response,
method), so the emission sequence does not follow the claimed global step
order with all method changes before all operation-level changes. -/
theorem C3_counterexample :
    isOkE (Differ.diff c3OldSpec c3NewSpec) = true ∧
    (changesOf (Differ.diff c3OldSpec c3NewSpec)).map (fun c => c.category)
      = [.method, .response, .method] ∧
    phaseOrdered (changesOf (Differ.diff c3OldSpec c3NewSpec)) = false :=
  ⟨rfl, rfl, rfl⟩

/-- C3 (amended): every successful diff is the endpoint pass (removed-path
changes before added-path changes, each with endpoint category and empty
method/field slots) followed by exactly one segment per path common to both
normalized specs, the segments in one-to-one order-preserving correspondence
(Forall₂) with the common paths taken in old-document key order; each segment
is exactly that path's method-removed changes (old method order), then its
method-added changes (new method order), then one block of operation-level
changes per common method in old method order, each block the output of the
operation diff for that method. Method and operation-level changes are grouped
per common path, not emitted as two global phases. -/
theorem C3_order_amended : ∀ (old_spec new_spec : List (String × J)) (l : List Change),
    Differ.diff old_spec new_spec = .ok l →
    ∃ na nb olds es segs,
      Normalizer.normalize old_spec = .ok na ∧
      Normalizer.normalize new_spec = .ok nb ∧
      pyElems (objGetD na "paths" (J.obj .nil)) = .ok olds ∧
      Differ.diff_endpoints (objGetD na "paths" (J.obj .nil))
        (objGetD nb "paths" (J.obj .nil)) = .ok es ∧
      EndpointPhase es ∧
      l = es ++ List.flatten segs ∧
      List.Forall₂
        (PathSegment (objGetD na "paths" (J.obj .nil)) (objGetD nb "paths" (J.obj .nil)))
        (olds.filter fun x => inB x (objGetD nb "paths" (J.obj .nil))) segs := by
  intro o n l h
  rcases diff_decomp h with ⟨na, nb, es, os, h1, h2, he, ho, rfl⟩
  rcases diff_operations_decomp ho with ⟨olds, helems, hloop⟩
  rcases opsLoop_segments hloop with ⟨segs, rfl, hfa⟩
  exact ⟨na, nb, olds, es, segs, h1, h2, helems, he, diff_endpoints_phase he, rfl, hfa⟩

/-- Witness for the amended C3 at the concrete two-path comparison. -/
theorem C3_order_amended_witness :
    Differ.diff c3OldSpec c3NewSpec = .ok (changesOf (Differ.diff c3OldSpec c3NewSpec)) ∧
    (∃ na nb olds es segs,
      Normalizer.normalize c3OldSpec = .ok na ∧
      Normalizer.normalize c3NewSpec = .ok nb ∧
      pyElems (objGetD na "paths" (J.obj .nil)) = .ok olds ∧
      Differ.diff_endpoints (objGetD na "paths" (J.obj .nil))
        (objGetD nb "paths" (J.obj .nil)) = .ok es ∧
      EndpointPhase es ∧
      changesOf (Differ.diff c3OldSpec c3NewSpec) = es ++ List.flatten segs ∧
      List.Forall₂
        (PathSegment (objGetD na "paths" (J.obj .nil)) (objGetD nb "paths" (J.obj .nil)))
        (olds.filter fun x => inB x (objGetD nb "paths" (J.obj .nil))) segs) :=
  ⟨rfl, C3_order_amended c3OldSpec c3NewSpec _ rfl⟩

/-- C4 counterexample: the old and new request bodies declare content type
a/b first, and a/b carries no schema, so under the claim no body change may
be emitted; the code skips a/b because its schema is empty and diffs the
schemas found under the second content type c/d, emitting a breaking schema
change. -/
theorem C4_counterexample :
    Differ.diff_request_body (J.str "/u") "post" c4OldOp c4NewOp
      = .ok [⟨.breaking, .schema, J.str "/u", some "POST", some (J.str "p"),
          "Field type changed"⟩] ∧
    Differ.extractSchemaLoop [("a/b", jo [])] = .ok (J.obj .nil) ∧
    truthy (J.obj .nil) = false :=
  ⟨rfl, rfl, rfl⟩

/-- C4 (amended): request-body extraction returns the schema of the first
content type whose schema is truthy, skipping content types with a missing or
empty schema; and when either side's extraction yields no truthy schema, no
body change is emitted for the operation. -/
theorem C4_first_truthy_schema_amended :
    (∀ (ct : String) (cs : J) (rest : List (String × J)) (s : J),
        pyGetD cs "schema" (J.obj .nil) = .ok s → truthy s = true →
        Differ.extractSchemaLoop ((ct, cs) :: rest) = .ok s) ∧
    (∀ (ct : String) (cs : J) (rest : List (String × J)) (s : J),
        pyGetD cs "schema" (J.obj .nil) = .ok s → truthy s = false →
        Differ.extractSchemaLoop ((ct, cs) :: rest) = Differ.extractSchemaLoop rest) ∧
    (∀ (path : J) (method : String) (old_op new_op : List (String × J)) (os ns : J),
        Differ.extract_schema_from_request_body
          (objGetD old_op "requestBody" (J.obj .nil)) = .ok os →
        Differ.extract_schema_from_request_body
          (objGetD new_op "requestBody" (J.obj .nil)) = .ok ns →
        (truthy os = false ∨ truthy ns = false) →
        Differ.diff_request_body path method old_op new_op = .ok []) := by
  refine ⟨?_, ?_, ?_⟩
  · intro ct cs rest s hg ht
    unfold Differ.extractSchemaLoop
    rw [hg]
    simp [ht]
  · intro ct cs rest s hg ht
    unfold Differ.extractSchemaLoop
    rw [hg]
    simp [ht]
    cases rest <;> rfl
  · intro path method old_op new_op os ns h1 h2 h3
    unfold Differ.diff_request_body
    by_cases hg : (! truthy (objGetD old_op "requestBody" (J.obj .nil)) &&
        ! truthy (objGetD new_op "requestBody" (J.obj .nil))) = true
    · rw [if_pos hg]
    · rw [if_neg hg, h1]
      dsimp only
      rw [h2]
      dsimp only
      rcases h3 with h3 | h3 <;> simp [h3]

/-- Witness for the amended C4 at operations without request bodies. -/
theorem C4_first_truthy_schema_amended_witness :
    Differ.extract_schema_from_request_body
      (objGetD ([] : List (String × J)) "requestBody" (J.obj .nil)) = .ok (J.obj .nil) ∧
    truthy (J.obj .nil) = false ∧
    Differ.diff_request_body (J.str "/w") "get" [] [] = .ok [] :=
  ⟨rfl, rfl, C4_first_truthy_schema_amended.2.2 (J.str "/w") "get" [] [] (J.obj .nil)
    (J.obj .nil) rfl rfl (Or.inl rfl)⟩

/-- C5 counterexample: c5BadDoc passes Parser validation, yet diffing it
against itself raises (its parameter is located in "cookie", and the bucket
indexing params["cookie"] raises KeyError), so the orchestration catch-all is
reached and the comparison fails with the generic unexpected error. -/
theorem C5_counterexample :
    isOkE (Parser.validate_decoded c5BadDoc) = true ∧
    DiffService.compare_decoded c5BadDoc c5BadDoc = .error .unexpected :=
  ⟨rfl, rfl⟩

/-- C5 (amended): Parser validation only constrains the top-level keys, so
normalization/diffing can raise on validated documents; whenever the Differ
raises on two validated documents, the orchestration boundary surfaces the
failure as the generic unexpected error. -/
theorem C5_catch_all_amended : ∀ (old_doc new_doc : J) (a b : List (String × J)) (e : Unit),
    Parser.validate_decoded old_doc = .ok a → Parser.validate_decoded new_doc = .ok b →
    Differ.diff a b = .error e →
    DiffService.compare_decoded old_doc new_doc = .error .unexpected := by
  intro o n a b e h1 h2 h3
  unfold DiffService.compare_decoded
  rw [h1]
  dsimp only
  rw [h2]
  dsimp only
  rw [h3]

/-- Witness for the amended C5 at the cookie-parameter document. -/
theorem C5_catch_all_amended_witness :
    Parser.validate_decoded c5BadDoc = .ok (okSpecOf (Parser.validate_decoded c5BadDoc)) ∧
    Differ.diff (okSpecOf (Parser.validate_decoded c5BadDoc))
      (okSpecOf (Parser.validate_decoded c5BadDoc)) = .error () ∧
    DiffService.compare_decoded c5BadDoc c5BadDoc = .error .unexpected :=
  ⟨rfl, rfl, C5_catch_all_amended c5BadDoc c5BadDoc _ _ () rfl rfl rfl⟩

/-- C6 counterexample: c6NoInfoDoc carries an info key (bound to an empty
mapping), yet validation fails with the MissingInfo reason, contradicting
the claim that MissingInfo occurs exactly when the info key is absent. -/
theorem C6_counterexample :
    Parser.validate_decoded c6NoInfoDoc = .error .missingInfo ∧
    docHasKey c6NoInfoDoc "info" = true :=
  ⟨rfl, rfl⟩

/-- C6 (amended): on a decoded mapping whose openapi or swagger value is
truthy, validation fails with MissingInfo exactly when the info value is
absent or falsy, and with MissingPaths exactly when the info value is truthy
and the paths value is absent or falsy; no partial document is returned
since failures are terminal by construction. -/
theorem C6_validation_amended : ∀ (kvs : JObj),
    (truthy (objGetD kvs.toList "openapi" J.null)
      || truthy (objGetD kvs.toList "swagger" J.null)) = true →
    ((Parser.validate_decoded (J.obj kvs) = .error .missingInfo) ↔
      truthy (objGetD kvs.toList "info" J.null) = false) ∧
    ((Parser.validate_decoded (J.obj kvs) = .error .missingPaths) ↔
      (truthy (objGetD kvs.toList "info" J.null) = true ∧
       truthy (objGetD kvs.toList "paths" J.null) = false)) := by
  intro kvs hdisc
  have hcond : (! truthy (objGetD kvs.toList "openapi" J.null) &&
      ! truthy (objGetD kvs.toList "swagger" J.null)) = false := by
    cases ho : truthy (objGetD kvs.toList "openapi" J.null) <;>
      cases hsw : truthy (objGetD kvs.toList "swagger" J.null) <;>
        simp_all
  by_cases hinfo : truthy (objGetD kvs.toList "info" J.null) = true <;>
    by_cases hpaths : truthy (objGetD kvs.toList "paths" J.null) = true <;>
      simp [Parser.validate_decoded, hcond, hinfo, hpaths]

/-- Witness for the amended C6: swagger plus info but no paths fails with
MissingPaths. -/
theorem C6_validation_amended_witness :
    Parser.validate_decoded c6NoPathsDoc = .error .missingPaths :=
  (C6_validation_amended
    (JObj.ofList [("swagger", J.str "2.0"), ("info", jo [("title", J.str "API")])])
    rfl).2.mpr ⟨rfl, rfl⟩

/-- C7 counterexample: the compare entry point's format parameters default to
"json", not "auto"; on YAML-looking content the default resolves to "json"
while auto-detection resolves to "yaml", so the default call does not behave
like auto-detection. -/
theorem C7_counterexample :
    DiffService.defaultFormat ≠ "auto" ∧
    DiffService.resolveFormat "a: 1" DiffService.defaultFormat = "json" ∧
    DiffService.resolveFormat "a: 1" "auto" = "yaml" :=
  ⟨by decide, rfl, rfl⟩

/-- C7 (amended): the format parameters default to "json"; a format that is
empty or "auto" is resolved by the Parser's detector (trimmed content opening
with a brace means JSON, anything else YAML), so a default call always parses
both inputs as JSON and in general differs from auto-detection. -/
theorem C7_format_amended : ∀ (content fmt : String),
    ((fmt = "" ∨ fmt = "auto") →
      DiffService.resolveFormat content fmt = Parser.detect_format content) ∧
    DiffService.resolveFormat content DiffService.defaultFormat = "json" ∧
    (Parser.detect_format content = "json" ∨ Parser.detect_format content = "yaml") := by
  intro content fmt
  refine ⟨?_, rfl, ?_⟩
  · intro hf
    unfold DiffService.resolveFormat
    rcases hf with rfl | rfl <;> simp
  · unfold Parser.detect_format
    by_cases hs : startsList (pyStrip content).data ['\x7b'] = true <;> simp [hs]

/-- Witness for the amended C7 on YAML-looking content. -/
theorem C7_format_amended_witness :
    DiffService.resolveFormat "a: 1" "auto" = Parser.detect_format "a: 1" ∧
    DiffService.resolveFormat "a: 1" DiffService.defaultFormat = "json" :=
  ⟨(C7_format_amended "a: 1" "auto").1 (Or.inr rfl), (C7_format_amended "a: 1" "auto").2.1⟩

/-- C8: when both comparisons succeed, the set of paths reported as
endpoint-removed by compare(A, B) equals the set reported as endpoint-added
by compare(B, A), and vice versa. -/
theorem C8_duality : ∀ (A B : J) (rAB rBA : DiffResult),
    DiffService.compare_decoded A B = .ok rAB →
    DiffService.compare_decoded B A = .ok rBA →
    (∀ p, p ∈ removedEndpointPaths rAB.changes ↔ p ∈ addedEndpointPaths rBA.changes) ∧
    (∀ p, p ∈ addedEndpointPaths rAB.changes ↔ p ∈ removedEndpointPaths rBA.changes) := by
  intro A B rAB rBA hAB hBA
  rcases compare_decomp hAB with ⟨a, b, l1, ha1, hb1, hd1, rfl⟩
  rcases compare_decomp hBA with ⟨b', a', l2, hb2, ha2, hd2, rfl⟩
  have hbb : b' = b := Except.ok.inj (hb2.symm.trans hb1)
  have haa : a' = a := Except.ok.inj (ha2.symm.trans ha1)
  subst hbb
  subst haa
  rcases diff_decomp hd1 with ⟨na, nb, es1, os1, hna1, hnb1, he1, ho1, rfl⟩
  rcases diff_decomp hd2 with ⟨nb', na', es2, os2, hnb2, hna2, he2, ho2, rfl⟩
  have h1 : nb' = nb := Except.ok.inj (hnb2.symm.trans hnb1)
  have h2 : na' = na := Except.ok.inj (hna2.symm.trans hna1)
  rw [h1, h2] at he2 ho2
  rcases diff_endpoints_eq he1 with ⟨olds1, news1, hoe1, hne1, heq1⟩
  rcases diff_endpoints_eq he2 with ⟨olds2, news2, hoe2, hne2, heq2⟩
  have e1 : news2 = olds1 := Except.ok.inj (hne2.symm.trans hoe1)
  have e2 : olds2 = news1 := Except.ok.inj (hoe2.symm.trans hne1)
  rw [e1, e2] at heq2
  have hos1 : ∀ c ∈ os1, c.category ≠ Category.endpoint := by
    rcases diff_operations_chunks ho1 with ⟨chs, rfl, hsh⟩
    exact chunks_no_endpoint hsh
  have hos2 : ∀ c ∈ os2, c.category ≠ Category.endpoint := by
    rcases diff_operations_chunks ho2 with ⟨chs, rfl, hsh⟩
    exact chunks_no_endpoint hsh
  have hr1 : removedEndpointPaths (es1 ++ os1)
      = olds1.filter (fun x => notInB x (objGetD nb "paths" (J.obj .nil))) := by
    rw [(endpointPaths_append es1 os1).1, heq1,
      (endpointPaths_of_endpoint_pass olds1 news1 (objGetD nb "paths" (J.obj .nil))
        (objGetD na "paths" (J.obj .nil))).1,
      (endpointPaths_nil_of_no_endpoint os1 hos1).1, List.append_nil]
  have ha1' : addedEndpointPaths (es1 ++ os1)
      = news1.filter (fun x => notInB x (objGetD na "paths" (J.obj .nil))) := by
    rw [(endpointPaths_append es1 os1).2, heq1,
      (endpointPaths_of_endpoint_pass olds1 news1 (objGetD nb "paths" (J.obj .nil))
        (objGetD na "paths" (J.obj .nil))).2,
      (endpointPaths_nil_of_no_endpoint os1 hos1).2, List.append_nil]
  have hr2 : removedEndpointPaths (es2 ++ os2)
      = news1.filter (fun x => notInB x (objGetD na "paths" (J.obj .nil))) := by
    rw [(endpointPaths_append es2 os2).1, heq2,
      (endpointPaths_of_endpoint_pass news1 olds1 (objGetD na "paths" (J.obj .nil))
        (objGetD nb "paths" (J.obj .nil))).1,
      (endpointPaths_nil_of_no_endpoint os2 hos2).1, List.append_nil]
  have ha2' : addedEndpointPaths (es2 ++ os2)
      = olds1.filter (fun x => notInB x (objGetD nb "paths" (J.obj .nil))) := by
    rw [(endpointPaths_append es2 os2).2, heq2,
      (endpointPaths_of_endpoint_pass news1 olds1 (objGetD na "paths" (J.obj .nil))
        (objGetD nb "paths" (J.obj .nil))).2,
      (endpointPaths_nil_of_no_endpoint os2 hos2).2, List.append_nil]
  constructor
  · intro p
    show p ∈ removedEndpointPaths (es1 ++ os1) ↔ p ∈ addedEndpointPaths (es2 ++ os2)
    rw [hr1, ha2']
  · intro p
    show p ∈ addedEndpointPaths (es1 ++ os1) ↔ p ∈ removedEndpointPaths (es2 ++ os2)
    rw [ha1', hr2]

/-- Witness for C8 at a concrete pair where path /b exists only in A. -/
theorem C8_duality_witness :
    DiffService.compare_decoded c8ADoc c8BDoc
      = .ok (resultOf (DiffService.compare_decoded c8ADoc c8BDoc)) ∧
    (J.str "/b" ∈ removedEndpointPaths
        (resultOf (DiffService.compare_decoded c8ADoc c8BDoc)).changes ↔
     J.str "/b" ∈ addedEndpointPaths
        (resultOf (DiffService.compare_decoded c8BDoc c8ADoc)).changes) :=
  ⟨rfl, (C8_duality c8ADoc c8BDoc _ _ rfl rfl).1 (J.str "/b")⟩

/-- C9 counterexample: path-item normalization keeps the entry get -> "hi"
although its value is not a record, so the keep-condition is on the key only;
the summary entry is dropped because of its key, not its value. -/
theorem C9_counterexample :
    Normalizer.normalize_paths_openapi3
        (jo [("/a", jo [("get", J.str "hi"), ("summary", J.str "s")])])
      = .ok [("/a", jo [("get", J.str "hi")])] ∧
    isDict (J.str "hi") = false :=
  ⟨rfl, rfl⟩

/-- C9 (amended): in both dialects, path-item normalization keeps a key
exactly when its lower-cased form is a recognized method, regardless of the
value (the record check happens later, in the Differ's method extraction);
the kept entry is stored under the lower-cased key and holds the value of
the last entry, in source order, whose lower-cased key matches. -/
theorem C9_normalization_amended : ∀ (entries : List (String × J)) (m : String),
    Normalizer.normalizePathItem (jo entries) = .ok (Normalizer.normalizePathItemGo [] entries) ∧
    dictLookup (Normalizer.normalizePathItemGo [] entries) m = lastValueForMethod entries m ∧
    Normalizer.normalize_paths_swagger2 (jo entries) = Normalizer.normalize_paths_openapi3 (jo entries) := by
  intro entries m
  refine ⟨?_, ?_, rfl⟩
  · unfold Normalizer.normalizePathItem
    simp [pyItems, jo, JObj.toList_ofList]
  · rw [normItemGo_lookup]
    cases hl : lastValueForMethod entries m with
    | some w => rfl
    | none => rfl

/-- C10: every change emitted by a successful Differ run in the endpoint
category leaves both method and field unset, and every change in the other
categories carries the upper-casing of a recognized method key in its method
slot. -/
theorem C10_method_fields : ∀ (old_spec new_spec : List (String × J)) (l : List Change),
    Differ.diff old_spec new_spec = .ok l →
    ∀ c ∈ l,
      (c.category = .endpoint → c.method = none ∧ c.field = none) ∧
      (c.category ≠ .endpoint → ∃ m, METHODS.contains (pyLower m) = true ∧
        c.method = some (pyUpper m)) := by
  intro o n l h c hc
  rcases diff_decomp h with ⟨na, nb, es, os, _, _, he, ho, rfl⟩
  rcases List.mem_append.mp hc with hc' | hc'
  · rcases diff_endpoints_phase he with ⟨er, ea, rfl, her, hea⟩
    rcases List.mem_append.mp hc' with hc'' | hc''
    · rcases her c hc'' with ⟨hcat, _, hm, hf⟩
      exact ⟨fun _ => ⟨hm, hf⟩, fun hne => absurd hcat hne⟩
    · rcases hea c hc'' with ⟨hcat, _, hm, hf⟩
      exact ⟨fun _ => ⟨hm, hf⟩, fun hne => absurd hcat hne⟩
  · rcases diff_operations_chunks ho with ⟨chunks, rfl, hsh⟩
    rcases List.mem_flatten.mp hc' with ⟨ch, hch, hcch⟩
    rcases hsh ch hch with ⟨mr, ma, ops, rfl, hmr, hma, hops⟩
    rcases List.mem_append.mp hcch with hc'' | hc''
    · rcases List.mem_append.mp hc'' with h3 | h3
      · rcases hmr c h3 with ⟨hcat, _, _, m, hm, hmeq⟩
        refine ⟨fun hce => absurd (hcat.symm.trans hce) (by simp), fun _ => ⟨m, hm, hmeq⟩⟩
      · rcases hma c h3 with ⟨hcat, _, _, m, hm, hmeq⟩
        refine ⟨fun hce => absurd (hcat.symm.trans hce) (by simp), fun _ => ⟨m, hm, hmeq⟩⟩
    · rcases hops c hc'' with ⟨hcat3, m, hm, hmeq⟩
      refine ⟨fun hce => ?_, fun _ => ⟨m, hm, hmeq⟩⟩
      rcases hcat3 with hcat | hcat | hcat <;>
        exact absurd (hcat.symm.trans hce) (by simp)

/-- Witness for C10 at a concrete diff whose first change is a parameter
type change on GET. -/
theorem C10_method_fields_witness :
    ((firstChangeOf (Differ.diff c10OldSpec c10NewSpec)).category = .endpoint →
      (firstChangeOf (Differ.diff c10OldSpec c10NewSpec)).method = none ∧
      (firstChangeOf (Differ.diff c10OldSpec c10NewSpec)).field = none) ∧
    ((firstChangeOf (Differ.diff c10OldSpec c10NewSpec)).category ≠ .endpoint →
      ∃ m, METHODS.contains (pyLower m) = true ∧
        (firstChangeOf (Differ.diff c10OldSpec c10NewSpec)).method = some (pyUpper m)) :=
  C10_method_fields c10OldSpec c10NewSpec (changesOf (Differ.diff c10OldSpec c10NewSpec)) rfl
    (firstChangeOf (Differ.diff c10OldSpec c10NewSpec))
    (by rw [show changesOf (Differ.diff c10OldSpec c10NewSpec)
          = [firstChangeOf (Differ.diff c10OldSpec c10NewSpec)] from rfl]
        exact List.mem_cons_self _ _)

end SpecDrift
